import Mathlib

/-!
Verification of the Media Processing Orchestrator of the `banify` repository
(`src/services/ai-processing.ts`), against its natural-language specification.

The TypeScript service is shallowly embedded: pixel buffers are functions
`Nat → Nat` from byte index to byte value (row-major RGBA, as in `ImageData.data`),
JavaScript numbers that are used as integers become `Int`/`Nat`, fractional
JavaScript numbers (progress percentages, memory readings, sample weights)
become `ℚ`, and the network / cancellation effects of the orchestration code
become explicit oracles (a fetch-outcome oracle indexed by provider and attempt,
and an abort instant), so every run of the model is a pure computation.
-/

namespace Banify

/-- Point in buffer pixel coordinates, as in the `Point` type of the source. -/
structure Pt where
  x : Int
  y : Int
deriving DecidableEq

/-- Bounding box as returned by `calculateBoundingBox` (integer-valued). -/
structure BBoxI where
  x : Int
  y : Int
  width : Int
  height : Int
deriving DecidableEq

/-! ## Content-aware fill (`applyContentAwareFill` and helpers)

The fill works in place on a `Uint8ClampedArray`; we model the byte array as a
function `Nat → Nat` and a write as a pointwise functional update.  The source
computes each sample weight as `1 / (1 + distance)` with
`distance = Math.sqrt(dx*dx + dy*dy)`; since the square root is irrational for
general `(dx, dy)`, the weight function is a parameter `wfn` of the embedding.
Every theorem below either does not depend on the weights at all, or evaluates
the fill on a single-row buffer, where the only samples that pass the bounds
check have `dy = 0` and the source weight is exactly `1 / (1 + |dx|)`. -/

/-- One sample collected by `sampleSurroundingPixels`: four channel values and
the sample weight. -/
structure Sample where
  r : Nat
  g : Nat
  b : Nat
  a : Nat
  weight : ℚ
deriving DecidableEq

/-- The offsets `-radius .. radius` with `radius = 5`, in loop order. -/
def offsets : List Int := (List.range 11).map fun i => (i : Int) - 5

/-- Embedding of `sampleSurroundingPixels(data, x, y, width, height)`:
collects, for every offset pair with `nx = x + dx`, `ny = y + dy` inside the
buffer bounds, the four channel bytes at `(ny * width + nx) * 4` and the
weight `wfn dx dy`. -/
def sampleSurroundingPixels (wfn : Int → Int → ℚ) (data : Nat → Nat)
    (x y width height : Int) : List Sample :=
  offsets.foldl (fun acc dy =>
    offsets.foldl (fun acc2 dx =>
      let nx := x + dx
      let ny := y + dy
      if 0 ≤ nx ∧ nx < width ∧ 0 ≤ ny ∧ ny < height then
        let idx := ((ny * width + nx) * 4).toNat
        acc2 ++ [⟨data idx, data (idx + 1), data (idx + 2), data (idx + 3), wfn dx dy⟩]
      else acc2) acc) []

/-- JavaScript `Math.round` for the nonnegative values that occur here:
round half away from zero, i.e. `⌊q + 1/2⌋`. -/
def jsRound (q : ℚ) : Int := ⌊q + 1 / 2⌋

/-- Averaged channel values returned by `calculateWeightedAverage`. -/
structure Avg where
  r : Int
  g : Int
  b : Int
  a : Int
deriving DecidableEq

/-- Embedding of `calculateWeightedAverage(samples)`. -/
def calculateWeightedAverage (samples : List Sample) : Avg :=
  let totalWeight := samples.foldl (fun t s => t + s.weight) 0
  let r := samples.foldl (fun t s => t + (s.r : ℚ) * s.weight) 0
  let g := samples.foldl (fun t s => t + (s.g : ℚ) * s.weight) 0
  let b := samples.foldl (fun t s => t + (s.b : ℚ) * s.weight) 0
  let a := samples.foldl (fun t s => t + (s.a : ℚ) * s.weight) 0
  ⟨jsRound (r / totalWeight), jsRound (g / totalWeight),
   jsRound (b / totalWeight), jsRound (a / totalWeight)⟩

/-- A store to a `Uint8ClampedArray` clamps to `0..255` (the stored values are
already integers, so only the clamp matters). -/
def clampByte (v : Int) : Nat := (max 0 (min 255 v)).toNat

/-- Functional update of one byte of the buffer. -/
def writeByte (d : Nat → Nat) (i : Nat) (v : Int) : Nat → Nat :=
  fun j => if j = i then clampByte v else d j

/-- The body of the per-pixel step of `applyContentAwareFill`: sample the
neighborhood and overwrite the four channels at `(y * width + x) * 4` with the
weighted average, if any sample was collected. -/
def fillPixelAt (wfn : Int → Int → ℚ) (width height : Nat) (d : Nat → Nat)
    (x y : Nat) : Nat → Nat :=
  let idx := (y * width + x) * 4
  let samples := sampleSurroundingPixels wfn d (x : Int) (y : Int) (width : Int) (height : Int)
  if 0 < samples.length then
    let avg := calculateWeightedAverage samples
    writeByte (writeByte (writeByte (writeByte d idx avg.r) (idx + 1) avg.g)
      (idx + 2) avg.b) (idx + 3) avg.a
  else d

/-- Embedding of `applyContentAwareFill(data, width, height, maskPoints)`.
The source iterates `y` over `0 ..< height` and `x` over `0 ..< width`,
mutating `data` in place; note that the `maskPoints` parameter is received but
never consulted by the source function. -/
def applyContentAwareFill (wfn : Int → Int → ℚ) (width height : Nat)
    (maskPoints : List Pt) (data : Nat → Nat) : Nat → Nat :=
  (List.range height).foldl (fun d y =>
    (List.range width).foldl (fun d2 x => fillPixelAt wfn width height d2 x y) d) data

/-- A processing chunk, as produced by `createProcessingChunks` (the source also
stores `maskPoints` in each chunk; the mask is passed alongside instead, with
the same value for every chunk, exactly as in the source). -/
structure Chunk where
  x : Nat
  y : Nat
  width : Nat
  height : Nat
deriving DecidableEq

/-- Start coordinates `0, 100, 200, ...` below `limit` (chunk size 100). -/
def chunkStarts (limit : Nat) : List Nat :=
  (List.range ((limit + 99) / 100)).map (· * 100)

/-- Embedding of `createProcessingChunks(imageData, maskPoints)`. -/
def createProcessingChunks (width height : Nat) : List Chunk :=
  (chunkStarts height).flatMap fun y =>
    (chunkStarts width).map fun x =>
      ⟨x, y, min 100 (width - x), min 100 (height - y)⟩

/-- Byte index into the full image corresponding to byte `i` of the sub-image
copied out by `getImageData(c.x, c.y, c.width, c.height)`. -/
def chunkIndexMap (imgWidth : Nat) (c : Chunk) (i : Nat) : Nat :=
  let p := i / 4
  ((c.y + p / c.width) * imgWidth + (c.x + p % c.width)) * 4 + i % 4

/-- The sub-image copy made by `getImageData` at the start of `processChunk`. -/
def extractChunk (data : Nat → Nat) (imgWidth : Nat) (c : Chunk) : Nat → Nat :=
  fun i => data (chunkIndexMap imgWidth c i)

/-- The write-back performed by `putImageData` at the end of `processChunk`. -/
def writeBackChunk (data : Nat → Nat) (imgWidth : Nat) (c : Chunk)
    (cd : Nat → Nat) : Nat → Nat := fun i =>
  let p := i / 4
  let px := p % imgWidth
  let py := p / imgWidth
  if c.x ≤ px ∧ px < c.x + c.width ∧ c.y ≤ py ∧ py < c.y + c.height then
    cd (((py - c.y) * c.width + (px - c.x)) * 4 + i % 4)
  else data i

/-- Embedding of `processChunk(ctx, chunk)`: copy the chunk out, run
`applyContentAwareFill` on the copy with the chunk dimensions, write it back. -/
def processChunk (wfn : Int → Int → ℚ) (imgWidth : Nat) (maskPoints : List Pt)
    (data : Nat → Nat) (c : Chunk) : Nat → Nat :=
  writeBackChunk data imgWidth c
    (applyContentAwareFill wfn c.width c.height maskPoints (extractChunk data imgWidth c))

/-- The pixel transformation performed by `advancedLocalRemoval`: every chunk of
`createProcessingChunks`, processed in order. -/
def advancedLocalRemovalFill (wfn : Int → Int → ℚ) (width height : Nat)
    (maskPoints : List Pt) (data : Nat → Nat) : Nat → Nat :=
  (createProcessingChunks width height).foldl (processChunk wfn width maskPoints) data

/-! ## Concrete fill instances for claim C1 -/

/-- Weight function on a single-row buffer: only `dy = 0` offsets pass the
bounds check there, and for them the source weight
`1 / (1 + Math.sqrt(dx*dx + 0))` is exactly `1 / (1 + |dx|)`. -/
def rowWeight (dx dy : Int) : ℚ := 1 / (1 + (dx.natAbs : ℚ) + (dy.natAbs : ℚ))

/-- A 2×1 buffer: pixel `(0,0)` is `(0,0,0,0)`, pixel `(1,0)` is
`(255,255,255,255)`. -/
def data21 : Nat → Nat := fun i => if i < 4 then 0 else if i < 8 then 255 else 0

/-- A 3-point mask polygon far away from the 2×1 buffer: neither buffer pixel
is inside (or anywhere near) this triangle. -/
def maskFar : List Pt := [⟨50, 50⟩, ⟨51, 50⟩, ⟨50, 51⟩]

/-- A different 3-point mask polygon, lying over the buffer itself. -/
def maskNear : List Pt := [⟨0, 0⟩, ⟨2, 0⟩, ⟨1, 2⟩]

/-- The offset list, evaluated. -/
theorem offsets_eq : offsets = [-5, -4, -3, -2, -1, 0, 1, 2, 3, 4, 5] := by decide

/-- The chunk decomposition of a 2×1 buffer is a single 2×1 chunk. -/
theorem chunks21 : createProcessingChunks 2 1 = [⟨0, 0, 2, 1⟩] := by decide

/-- Samples collected at pixel `(0,0)` of the 2×1 buffer. -/
theorem samp_p0 : sampleSurroundingPixels rowWeight data21 0 0 2 1 =
    [⟨0, 0, 0, 0, 1⟩, ⟨255, 255, 255, 255, 1/2⟩] := by
  norm_num [sampleSurroundingPixels, offsets_eq, data21, rowWeight] <;> decide

/-- Weighted average at pixel `(0,0)`: `(0·1 + 255·½) / (3/2) = 85`. -/
theorem avg_p0 : calculateWeightedAverage [⟨0, 0, 0, 0, 1⟩, ⟨255, 255, 255, 255, 1/2⟩] =
    ⟨85, 85, 85, 85⟩ := by
  norm_num [calculateWeightedAverage, jsRound]

/-- The buffer after the fill has processed pixel `(0,0)`. -/
def dAfter0 : Nat → Nat :=
  writeByte (writeByte (writeByte (writeByte data21 0 85) (0 + 1) 85) (0 + 2) 85) (0 + 3) 85

theorem fill_p0 : fillPixelAt rowWeight 2 1 data21 0 0 = dAfter0 := by
  show (if 0 < (sampleSurroundingPixels rowWeight data21 0 0 2 1).length then
      writeByte (writeByte (writeByte (writeByte data21 ((0 * 2 + 0) * 4)
        (calculateWeightedAverage (sampleSurroundingPixels rowWeight data21 0 0 2 1)).r)
        ((0 * 2 + 0) * 4 + 1)
        (calculateWeightedAverage (sampleSurroundingPixels rowWeight data21 0 0 2 1)).g)
        ((0 * 2 + 0) * 4 + 2)
        (calculateWeightedAverage (sampleSurroundingPixels rowWeight data21 0 0 2 1)).b)
        ((0 * 2 + 0) * 4 + 3)
        (calculateWeightedAverage (sampleSurroundingPixels rowWeight data21 0 0 2 1)).a
    else data21) = dAfter0
  rw [samp_p0, avg_p0]
  rfl

/-- Samples collected at pixel `(1,0)` after the in-place write at `(0,0)`. -/
theorem samp_p1 : sampleSurroundingPixels rowWeight dAfter0 1 0 2 1 =
    [⟨85, 85, 85, 85, 1/2⟩, ⟨255, 255, 255, 255, 1⟩] := by
  norm_num [sampleSurroundingPixels, offsets_eq, dAfter0, writeByte, clampByte,
    data21, rowWeight] <;> decide

/-- Weighted average at pixel `(1,0)`: `(85·½ + 255·1) / (3/2) = 595/3`, which
rounds to 198. -/
theorem avg_p1 : calculateWeightedAverage [⟨85, 85, 85, 85, 1/2⟩, ⟨255, 255, 255, 255, 1⟩] =
    ⟨198, 198, 198, 198⟩ := by
  norm_num [calculateWeightedAverage, jsRound]

/-- The buffer after the fill has processed both pixels. -/
def dAfter1 : Nat → Nat :=
  writeByte (writeByte (writeByte (writeByte dAfter0 (1 * 4) 198) (1 * 4 + 1) 198)
    (1 * 4 + 2) 198) (1 * 4 + 3) 198

theorem fill_p1 : fillPixelAt rowWeight 2 1 dAfter0 1 0 = dAfter1 := by
  show (if 0 < (sampleSurroundingPixels rowWeight dAfter0 1 0 2 1).length then
      writeByte (writeByte (writeByte (writeByte dAfter0 ((0 * 2 + 1) * 4)
        (calculateWeightedAverage (sampleSurroundingPixels rowWeight dAfter0 1 0 2 1)).r)
        ((0 * 2 + 1) * 4 + 1)
        (calculateWeightedAverage (sampleSurroundingPixels rowWeight dAfter0 1 0 2 1)).g)
        ((0 * 2 + 1) * 4 + 2)
        (calculateWeightedAverage (sampleSurroundingPixels rowWeight dAfter0 1 0 2 1)).b)
        ((0 * 2 + 1) * 4 + 3)
        (calculateWeightedAverage (sampleSurroundingPixels rowWeight dAfter0 1 0 2 1)).a
    else dAfter0) = dAfter1
  rw [samp_p1, avg_p1]
  rfl

/-- `applyContentAwareFill` on the whole 2×1 buffer is the two pixel steps in
order, whatever the mask polygon. -/
theorem acf21 (m : List Pt) : applyContentAwareFill rowWeight 2 1 m data21 = dAfter1 := by
  show fillPixelAt rowWeight 2 1 (fillPixelAt rowWeight 2 1 data21 0 0) 1 0 = dAfter1
  rw [fill_p0, fill_p1]

/-- The `getImageData` copy of the single chunk of a 2×1 image is the image
itself. -/
theorem extract_id21 : extractChunk data21 2 ⟨0, 0, 2, 1⟩ = data21 := by
  funext i
  show data21 (chunkIndexMap 2 ⟨0, 0, 2, 1⟩ i) = data21 i
  have : chunkIndexMap 2 ⟨0, 0, 2, 1⟩ i = i := by
    show ((0 + i / 4 / 2) * 2 + (0 + i / 4 % 2)) * 4 + i % 4 = i
    omega
  rw [this]

/-- The chunked local-removal pipeline on the 2×1 buffer, fully evaluated. -/
theorem alrf21 (m : List Pt) :
    advancedLocalRemovalFill rowWeight 2 1 m data21 =
      writeBackChunk data21 2 ⟨0, 0, 2, 1⟩ dAfter1 := by
  show (createProcessingChunks 2 1).foldl (processChunk rowWeight 2 m) data21 =
    writeBackChunk data21 2 ⟨0, 0, 2, 1⟩ dAfter1
  rw [chunks21]
  show writeBackChunk data21 2 ⟨0, 0, 2, 1⟩
      (applyContentAwareFill rowWeight 2 1 m (extractChunk data21 2 ⟨0, 0, 2, 1⟩)) =
    writeBackChunk data21 2 ⟨0, 0, 2, 1⟩ dAfter1
  rw [extract_id21, acf21]

/-- C1. The spec claims the local fallback fill modifies only pixels inside the
mask polygon and computes replacements only from samples outside the mask.  The
code does neither: `applyContentAwareFill` receives `maskPoints` but never
reads it, so the output is identical for any two masks (first conjunct), and
every pixel of the buffer is rewritten.  On a 2×1 buffer whose pixels are
`(0,0,0,0)` and `(255,255,255,255)`, with the mask triangle
`(50,50),(51,50),(50,51)` lying far outside the buffer, pixel `(1,0)` — outside
the mask — changes from 255 to 198 in every channel, its replacement moreover
being sampled from pixel `(0,0)` regardless of which side of the mask that
pixel is on. -/
theorem c1_fill_ignores_mask :
    (∀ (wfn : Int → Int → ℚ) (w h : Nat) (m1 m2 : List Pt) (d : Nat → Nat),
        advancedLocalRemovalFill wfn w h m1 d = advancedLocalRemovalFill wfn w h m2 d) ∧
    advancedLocalRemovalFill rowWeight 2 1 maskFar data21 4 = 198 ∧
    data21 4 = 255 ∧
    advancedLocalRemovalFill rowWeight 2 1 maskFar data21 0 = 85 ∧
    advancedLocalRemovalFill rowWeight 2 1 maskNear data21 4 = 198 := by
  refine ⟨fun _ _ _ _ _ _ => rfl, ?_, rfl, ?_, ?_⟩ <;>
    rw [alrf21] <;> norm_num [writeBackChunk, dAfter1, dAfter0, writeByte, clampByte] <;>
      decide

/-- Arithmetic bound: a byte index read by `sampleSurroundingPixels` for an
in-bounds pixel `(nx, ny)` and channel `c < 4` is below `width * height * 4`. -/
theorem read_index_lt (nx ny width height : Int)
    (h1 : 0 ≤ nx) (h2 : nx < width) (h3 : 0 ≤ ny) (h4 : ny < height)
    (c : Nat) (hc : c < 4) :
    ((((ny * width + nx) * 4).toNat + c : Nat) : Int) < width * height * 4 := by
  have hw : 0 < width := lt_of_le_of_lt h1 h2
  have hnn : 0 ≤ ny * width + nx := by
    have := mul_nonneg h3 hw.le
    linarith
  have hmul : (ny + 1) * width ≤ height * width :=
    mul_le_mul_of_nonneg_right (by linarith) hw.le
  have hcast : (((ny * width + nx) * 4).toNat : Int) = (ny * width + nx) * 4 :=
    Int.toNat_of_nonneg (by linarith)
  push_cast [hcast]
  have hc4 : (c : Int) < 4 := by exact_mod_cast hc
  nlinarith

/-- Pointwise-equal fold functions give equal folds. -/
theorem list_foldl_congr {A B : Type} {f g : B → A → B}
    (h : ∀ b a, f b a = g b a) : ∀ (l : List A) (b : B), l.foldl f b = l.foldl g b := by
  intro l
  induction l with
  | nil => intro b; rfl
  | cons a tl ih => intro b; rw [List.foldl_cons, List.foldl_cons, h]; exact ih _

/-- C9. `sampleSurroundingPixels` reads only byte indices of pixels `(nx, ny)`
with `0 ≤ nx < width` and `0 ≤ ny < height`: its result is unchanged when the
buffer is replaced by any buffer agreeing on the bytes below
`width * height * 4` (i.e. it never reads a pixel outside the buffer bounds). -/
theorem c9_sample_reads_in_bounds (wfn : Int → Int → ℚ) (d1 d2 : Nat → Nat)
    (x y width height : Int)
    (h : ∀ i : Nat, (i : Int) < width * height * 4 → d1 i = d2 i) :
    sampleSurroundingPixels wfn d1 x y width height =
      sampleSurroundingPixels wfn d2 x y width height := by
  unfold sampleSurroundingPixels
  apply list_foldl_congr
  intro acc dy
  apply list_foldl_congr
  intro acc2 dx
  show (if 0 ≤ x + dx ∧ x + dx < width ∧ 0 ≤ y + dy ∧ y + dy < height then
      acc2 ++ [⟨d1 (((y + dy) * width + (x + dx)) * 4).toNat,
        d1 ((((y + dy) * width + (x + dx)) * 4).toNat + 1),
        d1 ((((y + dy) * width + (x + dx)) * 4).toNat + 2),
        d1 ((((y + dy) * width + (x + dx)) * 4).toNat + 3), wfn dx dy⟩]
    else acc2) =
    (if 0 ≤ x + dx ∧ x + dx < width ∧ 0 ≤ y + dy ∧ y + dy < height then
      acc2 ++ [⟨d2 (((y + dy) * width + (x + dx)) * 4).toNat,
        d2 ((((y + dy) * width + (x + dx)) * 4).toNat + 1),
        d2 ((((y + dy) * width + (x + dx)) * 4).toNat + 2),
        d2 ((((y + dy) * width + (x + dx)) * 4).toNat + 3), wfn dx dy⟩]
    else acc2)
  by_cases hb : 0 ≤ x + dx ∧ x + dx < width ∧ 0 ≤ y + dy ∧ y + dy < height
  · have e : ∀ c : Nat, c < 4 →
        d1 ((((y + dy) * width + (x + dx)) * 4).toNat + c) =
        d2 ((((y + dy) * width + (x + dx)) * 4).toNat + c) := fun c hc =>
      h _ (read_index_lt _ _ _ _ hb.1 hb.2.1 hb.2.2.1 hb.2.2.2 c hc)
    have e0 : d1 ((((y + dy) * width + (x + dx)) * 4).toNat) =
        d2 ((((y + dy) * width + (x + dx)) * 4).toNat) := by
      have := e 0 (by norm_num)
      simpa using this
    rw [if_pos hb, if_pos hb, e0, e 1 (by norm_num), e 2 (by norm_num), e 3 (by norm_num)]
  · rw [if_neg hb, if_neg hb]

/-- Witness for C9 at a concrete input: a 2×2 buffer, with a second buffer that
is garbage outside the 16 in-bounds bytes, sampled at `(0,0)`. -/
theorem c9_sample_reads_in_bounds_witness :
    sampleSurroundingPixels rowWeight (fun i => i) 0 0 2 2 =
      sampleSurroundingPixels rowWeight (fun i => if i < 16 then i else 999) 0 0 2 2 := by
  apply c9_sample_reads_in_bounds
  intro i hi
  have hi16 : i < 16 := by exact_mod_cast hi
  simp [hi16]

/-! ## Flood fill (`floodFill`, `calculateBoundingBox`, `fallbackObjectDetection`)

The source's `visited` is a `Set` of string keys `"x,y"`, i.e. a set of points;
it is modelled as a `Finset Pt`.  The `while` loop has no fuel in the source;
the model passes `5 * width * height + 1` fuel, which is never exhausted: every
iteration either discards the popped entry (stack length, and hence the measure
`stack.length + 5 * (width * height - nreg)`, decreases) or accepts a
previously unvisited in-bounds pixel (stack grows by 3 but the unvisited count
drops by 1, so the measure still decreases), and the measure starts at
`1 + 5 * width * height` at most. -/

/-- Whether a point lies inside the buffer bounds. -/
def inB (width height : Nat) (p : Pt) : Prop :=
  0 ≤ p.x ∧ p.x < (width : Int) ∧ 0 ≤ p.y ∧ p.y < (height : Int)

instance (width height : Nat) (p : Pt) : Decidable (inB width height p) := by
  unfold inB; infer_instance

/-- Sum of absolute per-channel differences between the pixel at `p` and the
reference color, as in the loop body of `floodFill`. -/
def colorDiffAt (data : Nat → Nat) (width : Nat) (refR refG refB : Nat) (p : Pt) : Nat :=
  let base := (p.y.toNat * width + p.x.toNat) * 4
  ((data base : Int) - refR).natAbs + ((data (base + 1) : Int) - refG).natAbs +
    ((data (base + 2) : Int) - refB).natAbs

/-- State of the `floodFill` loop. -/
structure FloodState where
  stack : List Pt
  visited : Finset Pt
  nreg : Nat
  region : List Pt

/-- The four neighbors pushed after accepting `p`, topmost last as in the
source (`push (x+1,y); push (x-1,y); push (x,y+1); push (x,y-1)`; `pop` takes
the most recently pushed entry, so the model's list head is `(x, y-1)`). -/
def pushNeighbors (p : Pt) (rest : List Pt) : List Pt :=
  ⟨p.x, p.y - 1⟩ :: ⟨p.x, p.y + 1⟩ :: ⟨p.x - 1, p.y⟩ :: ⟨p.x + 1, p.y⟩ :: rest

/-- Embedding of the `while` loop of `floodFill`.  The loop runs while the
stack is nonempty and the region holds fewer than 10000 pixels; a popped entry
is skipped when already visited or out of bounds, skipped when its color
differs from the reference color by more than 50, and otherwise accepted
(marked visited, appended to the region, its four neighbors pushed). -/
def floodFillLoop (data : Nat → Nat) (width height refR refG refB : Nat) :
    Nat → FloodState → List Pt
  | 0, st => st.region.reverse
  | fuel + 1, st =>
    if st.nreg < 10000 then
      match st.stack with
      | [] => st.region.reverse
      | p :: rest =>
        if p ∈ st.visited ∨ ¬ inB width height p then
          floodFillLoop data width height refR refG refB fuel { st with stack := rest }
        else if 50 < colorDiffAt data width refR refG refB p then
          floodFillLoop data width height refR refG refB fuel { st with stack := rest }
        else
          floodFillLoop data width height refR refG refB fuel
            { stack := pushNeighbors p rest,
              visited := insert p st.visited,
              nreg := st.nreg + 1,
              region := p :: st.region }
    else st.region.reverse

/-- Embedding of `floodFill(imageData, startX, startY, visited)`: reads the
reference color at the seed and runs the loop from a singleton stack. -/
def floodFill (data : Nat → Nat) (width height : Nat) (startX startY : Int) : List Pt :=
  let refIndex := ((startY * (width : Int) + startX) * 4).toNat
  floodFillLoop data width height (data refIndex) (data (refIndex + 1)) (data (refIndex + 2))
    (5 * width * height + 1) ⟨[⟨startX, startY⟩], ∅, 0, []⟩

/-- Embedding of `calculateBoundingBox(points)`: componentwise min/max, with
`width = maxX - minX` and `height = maxY - minY`; the empty list gives the zero
box. -/
def calculateBoundingBox : List Pt → BBoxI
  | [] => ⟨0, 0, 0, 0⟩
  | p :: ps =>
    let minX := ps.foldl (fun a q => min a q.x) p.x
    let maxX := ps.foldl (fun a q => max a q.x) p.x
    let minY := ps.foldl (fun a q => min a q.y) p.y
    let maxY := ps.foldl (fun a q => max a q.y) p.y
    ⟨minX, minY, maxX - minX, maxY - minY⟩

/-- Bounding box with JavaScript-number (rational) components, as carried by a
`DetectedObject` (provider responses may hold non-integer numbers). -/
structure BBoxQ where
  x : ℚ
  y : ℚ
  width : ℚ
  height : ℚ
deriving DecidableEq

/-- Cast of an integer box to a JavaScript-number box. -/
def BBoxI.toQ (b : BBoxI) : BBoxQ :=
  ⟨(b.x : ℚ), (b.y : ℚ), (b.width : ℚ), (b.height : ℚ)⟩

/-- A detected object of the common data model. -/
structure DetectedObject where
  id : String
  label : String
  confidence : ℚ
  bbox : BBoxQ
  mask : Option (List (List ℚ))
  color : String
deriving DecidableEq

/-- Embedding of `fallbackObjectDetection(imageData, clickPoint)`: no click
point means no detection; otherwise flood fill from the click point, and a
single synthetic object if the region exceeds 100 pixels. -/
def fallbackObjectDetection (data : Nat → Nat) (width height : Nat)
    (clickPoint : Option Pt) : List DetectedObject :=
  match clickPoint with
  | none => []
  | some c =>
    let region := floodFill data width height c.x c.y
    if 100 < region.length then
      [⟨"fallback_0", "Detected Region", 7 / 10,
        (calculateBoundingBox region).toQ, none, "#FF6B6B"⟩]
    else []

/-! ## Claim C5: the 100×100 uniform-buffer flood-fill scenario -/


/-- Adjacency: `b` is one of the four neighbors pushed after accepting `a`. -/
def Adj (a b : Pt) : Prop :=
  b = ⟨a.x, a.y - 1⟩ ∨ b = ⟨a.x, a.y + 1⟩ ∨ b = ⟨a.x - 1, a.y⟩ ∨ b = ⟨a.x + 1, a.y⟩

/-- Reachability through unvisited in-bounds pixels. -/
def ReachU (width height : Nat) (vis : Finset Pt) : Pt → Pt → Prop :=
  Relation.ReflTransGen (fun a b => Adj a b ∧ b ∉ vis ∧ inB width height b)

/-- The in-bounds grid as a finite set. -/
def grid (w h : Nat) : Finset Pt :=
  (Finset.range w ×ˢ Finset.range h).image fun ab => ⟨(ab.1 : Int), (ab.2 : Int)⟩

theorem mem_grid {w h : Nat} {p : Pt} : p ∈ grid w h ↔ inB w h p := by
  obtain ⟨px, py⟩ := p
  constructor
  · rintro hp
    simp only [grid, Finset.mem_image, Finset.mem_product, Finset.mem_range] at hp
    obtain ⟨⟨a, b⟩, ⟨ha, hb⟩, heq⟩ := hp
    simp only [Pt.mk.injEq] at heq
    obtain ⟨h1, h2⟩ := heq
    refine ⟨?_, ?_, ?_, ?_⟩ <;> simp only [] <;> omega
  · rintro ⟨h1, h2, h3, h4⟩
    simp only [] at h1 h2 h3 h4
    simp only [grid, Finset.mem_image, Finset.mem_product, Finset.mem_range]
    refine ⟨⟨px.toNat, py.toNat⟩, ⟨by omega, by omega⟩, ?_⟩
    simp only [Pt.mk.injEq]
    constructor <;> omega

theorem grid_card (w h : Nat) : (grid w h).card = w * h := by
  rw [grid, Finset.card_image_of_injective, Finset.card_product,
    Finset.card_range, Finset.card_range]
  intro a b hab
  simp only [Pt.mk.injEq] at hab
  obtain ⟨h1, h2⟩ := hab
  exact Prod.ext (by exact_mod_cast h1) (by exact_mod_cast h2)


/-- Re-routing: a path to `c ≠ p` either avoids `p` entirely, or can be
restarted just after the last visit to `p`. -/
theorem reach_avoid {R : Pt → Pt → Prop} {p c : Pt} (hc : c ≠ p) :
    ∀ s, Relation.ReflTransGen R s c →
      (s = p → ∃ n, R p n ∧ n ≠ p ∧
        Relation.ReflTransGen (fun a b => R a b ∧ b ≠ p) n c) ∧
      (s ≠ p → Relation.ReflTransGen (fun a b => R a b ∧ b ≠ p) s c ∨
        ∃ n, R p n ∧ n ≠ p ∧ Relation.ReflTransGen (fun a b => R a b ∧ b ≠ p) n c) := by
  intro s hs
  induction hs using Relation.ReflTransGen.head_induction_on with
  | refl =>
    refine ⟨fun hsp => absurd hsp.symm hc.symm, fun _ => Or.inl Relation.ReflTransGen.refl⟩
  | @head a b hab htail ih =>
    constructor
    · rintro rfl
      by_cases hb : b = a
      · exact ih.1 hb
      · rcases ih.2 hb with h | ⟨n, hn1, hn2, hn3⟩
        · exact ⟨b, hab, hb, h⟩
        · exact ⟨n, hn1, hn2, hn3⟩
    · intro hap
      by_cases hb : b = p
      · exact Or.inr (ih.1 hb)
      · rcases ih.2 hb with h | ⟨n, hn1, hn2, hn3⟩
        · exact Or.inl (Relation.ReflTransGen.head ⟨hab, hb⟩ h)
        · exact Or.inr ⟨n, hn1, hn2, hn3⟩

/-- Constructor form of `inB`. -/
theorem inB_mk {w h : Nat} {x y : Int} (h1 : 0 ≤ x) (h2 : x < (w : Int))
    (h3 : 0 ≤ y) (h4 : y < (h : Int)) : inB w h ⟨x, y⟩ := ⟨h1, h2, h3, h4⟩

theorem adj_up {x y : Int} : Adj ⟨x, y⟩ ⟨x, y - 1⟩ := Or.inl rfl

theorem adj_down {x y : Int} : Adj ⟨x, y⟩ ⟨x, y + 1⟩ := Or.inr (Or.inl rfl)

theorem adj_left {x y : Int} : Adj ⟨x, y⟩ ⟨x - 1, y⟩ := Or.inr (Or.inr (Or.inl rfl))

theorem adj_right {x y : Int} : Adj ⟨x, y⟩ ⟨x + 1, y⟩ := Or.inr (Or.inr (Or.inr rfl))

/-- Horizontal connectivity inside an empty-visited grid. -/
theorem reach_horiz {w h : Nat} (y : Int) (hy0 : 0 ≤ y) (hyh : y < (h : Int)) :
    ∀ (n : Nat) (a b : Int), (a - b).natAbs = n → 0 ≤ a → a < (w : Int) →
      0 ≤ b → b < (w : Int) → ReachU w h ∅ ⟨a, y⟩ ⟨b, y⟩ := by
  intro n
  induction n with
  | zero =>
    intro a b hab _ _ _ _
    have : a = b := by omega
    subst this
    exact Relation.ReflTransGen.refl
  | succ m ih =>
    intro a b hab ha0 haw hb0 hbw
    rcases lt_or_gt_of_ne (show a ≠ b by omega) with hlt | hgt
    · exact Relation.ReflTransGen.head
        ⟨adj_right, Finset.not_mem_empty _, inB_mk (by omega) (by omega) hy0 hyh⟩
        (ih (a + 1) b (by omega) (by omega) (by omega) hb0 hbw)
    · exact Relation.ReflTransGen.head
        ⟨adj_left, Finset.not_mem_empty _, inB_mk (by omega) (by omega) hy0 hyh⟩
        (ih (a - 1) b (by omega) (by omega) (by omega) hb0 hbw)

/-- Vertical connectivity inside an empty-visited grid. -/
theorem reach_vert {w h : Nat} (x : Int) (hx0 : 0 ≤ x) (hxw : x < (w : Int)) :
    ∀ (n : Nat) (a b : Int), (a - b).natAbs = n → 0 ≤ a → a < (h : Int) →
      0 ≤ b → b < (h : Int) → ReachU w h ∅ ⟨x, a⟩ ⟨x, b⟩ := by
  intro n
  induction n with
  | zero =>
    intro a b hab _ _ _ _
    have : a = b := by omega
    subst this
    exact Relation.ReflTransGen.refl
  | succ m ih =>
    intro a b hab ha0 hah hb0 hbh
    rcases lt_or_gt_of_ne (show a ≠ b by omega) with hlt | hgt
    · exact Relation.ReflTransGen.head
        ⟨adj_down, Finset.not_mem_empty _, inB_mk hx0 hxw (by omega) (by omega)⟩
        (ih (a + 1) b (by omega) (by omega) (by omega) hb0 hbh)
    · exact Relation.ReflTransGen.head
        ⟨adj_up, Finset.not_mem_empty _, inB_mk hx0 hxw (by omega) (by omega)⟩
        (ih (a - 1) b (by omega) (by omega) (by omega) hb0 hbh)

/-- Any in-bounds pixel is reachable from any in-bounds seed in the
empty-visited grid. -/
theorem reach_from_seed {w h : Nat} {s c : Pt} (hs : inB w h s) (hc : inB w h c) :
    ReachU w h ∅ s c := by
  obtain ⟨sx, sy⟩ := s
  obtain ⟨cx, cy⟩ := c
  obtain ⟨hs1, hs2, hs3, hs4⟩ := hs
  obtain ⟨hc1, hc2, hc3, hc4⟩ := hc
  simp only [] at *
  exact Relation.ReflTransGen.trans
    (reach_horiz sy hs3 hs4 (sx - cx).natAbs sx cx rfl hs1 hs2 hc1 hc2)
    (reach_vert cx hc1 hc2 (sy - cy).natAbs sy cy rfl hs3 hs4 hc3 hc4)


/-- Loop invariant for `floodFillLoop`: the region is duplicate-free and
in-bounds, `visited` is exactly the region as a set, `nreg` caches the region
length, and every unvisited in-bounds pixel is reachable from some unvisited
in-bounds stack entry through unvisited in-bounds pixels. -/
structure Inv (w h : Nat) (st : FloodState) : Prop where
  reg_nodup : st.region.Nodup
  reg_inb : ∀ p ∈ st.region, inB w h p
  vis_eq : ∀ p : Pt, p ∈ st.visited ↔ p ∈ st.region
  nreg_eq : st.nreg = st.region.length
  frontier : ∀ c : Pt, inB w h c → c ∉ st.visited →
    ∃ s ∈ st.stack, s ∉ st.visited ∧ inB w h s ∧ ReachU w h st.visited s c

/-- Under the invariant the region cannot exceed the grid size. -/
theorem inv_nreg_le {w h : Nat} {st : FloodState} (hi : Inv w h st) :
    st.nreg ≤ w * h := by
  rw [hi.nreg_eq, ← List.toFinset_card_of_nodup hi.reg_nodup, ← grid_card w h]
  apply Finset.card_le_card
  intro p hp
  rw [List.mem_toFinset] at hp
  exact mem_grid.mpr (hi.reg_inb p hp)

/-- On exit (empty stack or full region) the region is exactly the grid. -/
theorem exit_props {w h : Nat} {st : FloodState} (hi : Inv w h st)
    (hdone : st.stack = [] ∨ w * h ≤ st.nreg) :
    st.region.reverse.Nodup ∧ ∀ q : Pt, q ∈ st.region.reverse ↔ inB w h q := by
  refine ⟨List.nodup_reverse.mpr hi.reg_nodup, fun q => ?_⟩
  rw [List.mem_reverse]
  constructor
  · exact fun hq => hi.reg_inb q hq
  · intro hq
    by_cases hv : q ∈ st.visited
    · exact (hi.vis_eq q).mp hv
    · rcases hdone with hemp | hfull
      · obtain ⟨s, hs, _⟩ := hi.frontier q hq hv
        rw [hemp] at hs
        exact absurd hs (List.not_mem_nil s)
      · have hsub : st.region.toFinset ⊆ grid w h := fun p hp =>
          mem_grid.mpr (hi.reg_inb p (List.mem_toFinset.mp hp))
        have hlen : st.nreg = st.region.length := hi.nreg_eq
        have hcard : (grid w h).card ≤ st.region.toFinset.card := by
          rw [List.toFinset_card_of_nodup hi.reg_nodup, grid_card]
          omega
        have hEq := Finset.eq_of_subset_of_card_le hsub hcard
        have hq2 : q ∈ st.region.toFinset := by
          rw [hEq]
          exact mem_grid.mpr hq
        exact List.mem_toFinset.mp hq2

/-- A neighbor of `p` is on the stack after `p` is expanded. -/
theorem adj_mem_push {p n : Pt} (rest : List Pt) (hadj : Adj p n) :
    n ∈ pushNeighbors p rest := by
  rcases hadj with h | h | h | h <;> subst h <;> simp [pushNeighbors]

/-- Members of `rest` survive the expansion of `p`. -/
theorem mem_push_of_mem_rest {p n : Pt} {rest : List Pt} (hn : n ∈ rest) :
    n ∈ pushNeighbors p rest := by
  simp [pushNeighbors]
  tauto

/-- The successor state when the loop accepts `p` (marks it visited, appends
it to the region, pushes its neighbors). -/
def acceptStep (st : FloodState) (p : Pt) (rest : List Pt) : FloodState :=
  ⟨pushNeighbors p rest, insert p st.visited, st.nreg + 1, p :: st.region⟩

/-- Main lemma: with an always-passing color test and a grid of at most 10000
pixels, the flood-fill loop returns exactly the in-bounds pixels (without
duplicates), whatever order it explores them in. -/
theorem floodFillLoop_uniform (data : Nat → Nat) (w h refR refG refB : Nat)
    (hwh : w * h ≤ 10000)
    (hcol : ∀ p, inB w h p → colorDiffAt data w refR refG refB p ≤ 50) :
    ∀ (fuel : Nat) (st : FloodState), Inv w h st →
      st.stack.length + 5 * (w * h - st.nreg) ≤ fuel →
      (floodFillLoop data w h refR refG refB fuel st).Nodup ∧
      ∀ q : Pt, q ∈ floodFillLoop data w h refR refG refB fuel st ↔ inB w h q := by
  intro fuel
  induction fuel with
  | zero =>
    intro st hi hm
    have hemp : st.stack = [] := by
      cases hst : st.stack with
      | nil => rfl
      | cons a l => rw [hst] at hm; simp at hm
    simp only [floodFillLoop]
    exact exit_props hi (Or.inl hemp)
  | succ fuel ih =>
    intro st hi hm
    by_cases hcap : st.nreg < 10000
    · cases hst : st.stack with
      | nil =>
        simp only [floodFillLoop, if_pos hcap, hst]
        exact exit_props hi (Or.inl hst)
      | cons p rest =>
        simp only [floodFillLoop, if_pos hcap, hst]
        by_cases hd : p ∈ st.visited ∨ ¬ inB w h p
        · rw [if_pos hd]
          have hi2 : Inv w h { st with stack := rest } := by
            refine ⟨hi.reg_nodup, hi.reg_inb, hi.vis_eq, hi.nreg_eq, ?_⟩
            intro c hc hcv
            obtain ⟨s, hsmem, hsv, hsinB, hre⟩ := hi.frontier c hc hcv
            refine ⟨s, ?_, hsv, hsinB, hre⟩
            rw [hst] at hsmem
            rcases List.mem_cons.mp hsmem with rfl | hmem
            · exact absurd (Or.elim hd (fun hv => absurd hv hsv) fun hnb => absurd hsinB hnb)
                (fun f => f)
            · exact hmem
          have hm2 : rest.length + 5 * (w * h - st.nreg) ≤ fuel := by
            rw [hst] at hm
            simp only [List.length_cons] at hm
            omega
          exact ih { st with stack := rest } hi2 hm2
        · rw [if_neg hd]
          push_neg at hd
          obtain ⟨hv, hb⟩ := hd
          have hcol2 : ¬ 50 < colorDiffAt data w refR refG refB p := by
            have := hcol p hb
            omega
          rw [if_neg hcol2]
          -- accept case
          have hpreg : p ∉ st.region := fun hr => hv ((hi.vis_eq p).mpr hr)
          have hnlt : st.nreg < w * h := by
            have hsub : insert p st.region.toFinset ⊆ grid w h := by
              intro q hq
              rcases Finset.mem_insert.mp hq with rfl | hq2
              · exact mem_grid.mpr hb
              · exact mem_grid.mpr (hi.reg_inb q (List.mem_toFinset.mp hq2))
            have hcard := Finset.card_le_card hsub
            rw [Finset.card_insert_of_not_mem (fun hq => hpreg (List.mem_toFinset.mp hq)),
              List.toFinset_card_of_nodup hi.reg_nodup, grid_card] at hcard
            have hlen := hi.nreg_eq
            omega
          have hi2 : Inv w h (acceptStep st p rest) := by
            unfold acceptStep
            refine ⟨List.nodup_cons.mpr ⟨hpreg, hi.reg_nodup⟩, ?_, ?_, ?_, ?_⟩
            · intro q hq
              rcases List.mem_cons.mp hq with rfl | hq2
              · exact hb
              · exact hi.reg_inb q hq2
            · intro q
              simp only [Finset.mem_insert, List.mem_cons]
              exact or_congr Iff.rfl (hi.vis_eq q)
            · simp [hi.nreg_eq]
            · intro c hc hcv
              simp only [Finset.mem_insert, not_or] at hcv
              obtain ⟨hcp, hcvis⟩ := hcv
              obtain ⟨s, hsmem, hsv, hsinB, hre⟩ := hi.frontier c hc hcvis
              have hmono : ∀ {x : Pt},
                  Relation.ReflTransGen (fun a b =>
                    (Adj a b ∧ b ∉ st.visited ∧ inB w h b) ∧ b ≠ p) x c →
                  ReachU w h (insert p st.visited) x c := by
                intro x hx
                refine Relation.ReflTransGen.mono ?_ hx
                rintro a b ⟨⟨h1, h2, h3⟩, h4⟩
                refine ⟨h1, ?_, h3⟩
                simp only [Finset.mem_insert, not_or]
                exact ⟨h4, h2⟩
              by_cases hsp : s = p
              · obtain ⟨n, hn1, hn2, hn3⟩ :=
                  (reach_avoid hcp s hre).1 hsp
                exact ⟨n, adj_mem_push rest hn1.1, by
                  simp only [Finset.mem_insert, not_or]
                  exact ⟨hn2, hn1.2.1⟩, hn1.2.2, hmono hn3⟩
              · rcases (reach_avoid hcp s hre).2 hsp with hpath | ⟨n, hn1, hn2, hn3⟩
                · have hsrest : s ∈ rest := by
                    rw [hst] at hsmem
                    rcases List.mem_cons.mp hsmem with rfl | hmem
                    · exact absurd rfl hsp
                    · exact hmem
                  exact ⟨s, mem_push_of_mem_rest hsrest, by
                    simp only [Finset.mem_insert, not_or]
                    exact ⟨hsp, hsv⟩, hsinB, hmono hpath⟩
                · exact ⟨n, adj_mem_push rest hn1.1, by
                    simp only [Finset.mem_insert, not_or]
                    exact ⟨hn2, hn1.2.1⟩, hn1.2.2, hmono hn3⟩
          have hm2 : (acceptStep st p rest).stack.length +
              5 * (w * h - (acceptStep st p rest).nreg) ≤ fuel := by
            rw [hst] at hm
            simp only [List.length_cons] at hm
            simp only [acceptStep, pushNeighbors, List.length_cons]
            omega
          exact ih (acceptStep st p rest) hi2 hm2
    · simp only [floodFillLoop, if_neg hcap]
      exact exit_props hi (Or.inr (by omega))



/-- The uniform red RGBA buffer (`R = A = 255`, `G = B = 0`). -/
def redData : Nat → Nat := fun i => if i % 4 = 0 then 255 else if i % 4 = 3 then 255 else 0

/-- Every pixel of the red buffer passes the similarity test against the red
reference color. -/
theorem redData_colorOk : ∀ p : Pt, inB 100 100 p →
    colorDiffAt redData 100 255 0 0 p ≤ 50 := by
  intro p _
  show ((redData ((p.y.toNat * 100 + p.x.toNat) * 4) : Int) - 255).natAbs +
    ((redData ((p.y.toNat * 100 + p.x.toNat) * 4 + 1) : Int) - 0).natAbs +
    ((redData ((p.y.toNat * 100 + p.x.toNat) * 4 + 2) : Int) - 0).natAbs ≤ 50
  have e0 : redData ((p.y.toNat * 100 + p.x.toNat) * 4) = 255 := by
    unfold redData
    have h0 : (p.y.toNat * 100 + p.x.toNat) * 4 % 4 = 0 := by omega
    simp [h0]
  have e1 : redData ((p.y.toNat * 100 + p.x.toNat) * 4 + 1) = 0 := by
    unfold redData
    have h1 : ((p.y.toNat * 100 + p.x.toNat) * 4 + 1) % 4 = 1 := by omega
    simp [h1]
  have e2 : redData ((p.y.toNat * 100 + p.x.toNat) * 4 + 2) = 0 := by
    unfold redData
    have h2 : ((p.y.toNat * 100 + p.x.toNat) * 4 + 2) % 4 = 2 := by omega
    simp [h2]
  rw [e0, e1, e2]
  norm_num

/-- The invariant holds at the initial state for the centre seed. -/
theorem inv_init : Inv 100 100 ⟨[⟨50, 50⟩], ∅, 0, []⟩ := by
  refine ⟨List.nodup_nil, by simp, by simp, rfl, ?_⟩
  intro c hc _
  have hseed : inB 100 100 (⟨50, 50⟩ : Pt) :=
    inB_mk (by norm_num) (by norm_num) (by norm_num) (by norm_num)
  exact ⟨⟨50, 50⟩, by simp, by simp, hseed, reach_from_seed hseed hc⟩

/-- The flood fill from `(50,50)` on the red 100×100 buffer returns exactly
the 10000 grid pixels, without duplicates. -/
theorem flood100_mem : (floodFill redData 100 100 50 50).Nodup ∧
    ∀ q : Pt, q ∈ floodFill redData 100 100 50 50 ↔ inB 100 100 q := by
  have hmain := floodFillLoop_uniform redData 100 100 255 0 0 (by norm_num)
    redData_colorOk 50001 ⟨[⟨50, 50⟩], ∅, 0, []⟩ inv_init (by decide)
  have heq : floodFill redData 100 100 50 50 =
      floodFillLoop redData 100 100 255 0 0 50001 ⟨[⟨50, 50⟩], ∅, 0, []⟩ := rfl
  rw [heq]
  exact hmain

theorem flood100_length : (floodFill redData 100 100 50 50).length = 10000 := by
  obtain ⟨hnd, hmem⟩ := flood100_mem
  have hts : (floodFill redData 100 100 50 50).toFinset = grid 100 100 := by
    ext q
    rw [List.mem_toFinset, hmem, mem_grid]
  have := List.toFinset_card_of_nodup hnd
  rw [hts, grid_card] at this
  omega

/-- Lower bound for a `min`-fold: if the seed and every element are at least
`c`, so is the fold. -/
theorem le_foldl_min (f : Pt → Int) (c : Int) :
    ∀ (l : List Pt) (init : Int), c ≤ init → (∀ q ∈ l, c ≤ f q) →
      c ≤ l.foldl (fun a r => min a (f r)) init := by
  intro l
  induction l with
  | nil => intro init hinit _; exact hinit
  | cons a tl ih =>
    intro init hinit hall
    simp only [List.foldl_cons]
    exact ih _ (le_min hinit (hall a (List.mem_cons_self a _))) fun q hq =>
      hall q (List.mem_cons_of_mem a hq)

/-- A `min`-fold is at most its seed. -/
theorem foldl_min_le_init (f : Pt → Int) :
    ∀ (l : List Pt) (init : Int), l.foldl (fun a r => min a (f r)) init ≤ init := by
  intro l
  induction l with
  | nil => intro init; exact le_refl _
  | cons a tl ih =>
    intro init
    simp only [List.foldl_cons]
    exact le_trans (ih _) (min_le_left _ _)

/-- A `min`-fold is at most each element. -/
theorem foldl_min_le_mem (f : Pt → Int) :
    ∀ (l : List Pt) (init : Int) (q : Pt), q ∈ l →
      l.foldl (fun a r => min a (f r)) init ≤ f q := by
  intro l
  induction l with
  | nil => intro _ q hq; exact absurd hq (List.not_mem_nil q)
  | cons a tl ih =>
    intro init q hq
    simp only [List.foldl_cons]
    rcases List.mem_cons.mp hq with rfl | hq2
    · exact le_trans (foldl_min_le_init f tl _) (min_le_right _ _)
    · exact ih _ q hq2

/-- Upper bound for a `max`-fold. -/
theorem foldl_max_le (f : Pt → Int) (c : Int) :
    ∀ (l : List Pt) (init : Int), init ≤ c → (∀ q ∈ l, f q ≤ c) →
      l.foldl (fun a r => max a (f r)) init ≤ c := by
  intro l
  induction l with
  | nil => intro init hinit _; exact hinit
  | cons a tl ih =>
    intro init hinit hall
    simp only [List.foldl_cons]
    exact ih _ (max_le hinit (hall a (List.mem_cons_self a _))) fun q hq =>
      hall q (List.mem_cons_of_mem a hq)

/-- A `max`-fold is at least its seed. -/
theorem init_le_foldl_max (f : Pt → Int) :
    ∀ (l : List Pt) (init : Int), init ≤ l.foldl (fun a r => max a (f r)) init := by
  intro l
  induction l with
  | nil => intro init; exact le_refl _
  | cons a tl ih =>
    intro init
    simp only [List.foldl_cons]
    exact le_trans (le_max_left _ _) (ih _)

/-- A `max`-fold is at least each element. -/
theorem mem_le_foldl_max (f : Pt → Int) :
    ∀ (l : List Pt) (init : Int) (q : Pt), q ∈ l →
      f q ≤ l.foldl (fun a r => max a (f r)) init := by
  intro l
  induction l with
  | nil => intro _ q hq; exact absurd hq (List.not_mem_nil q)
  | cons a tl ih =>
    intro init q hq
    simp only [List.foldl_cons]
    rcases List.mem_cons.mp hq with rfl | hq2
    · exact le_trans (le_max_right _ _) (init_le_foldl_max f tl _)
    · exact ih _ q hq2

/-- The bounding box of the full-grid region: mins are 0, maxes are 99, and the
source computes width and height as `max - min`, giving 99 rather than 100. -/
theorem flood100_bbox :
    calculateBoundingBox (floodFill redData 100 100 50 50) = ⟨0, 0, 99, 99⟩ := by
  obtain ⟨hnd, hmem⟩ := flood100_mem
  cases hreg : floodFill redData 100 100 50 50 with
  | nil =>
    exfalso
    have h00 : (⟨0, 0⟩ : Pt) ∈ floodFill redData 100 100 50 50 :=
      (hmem _).mpr (inB_mk (by norm_num) (by norm_num) (by norm_num) (by norm_num))
    rw [hreg] at h00
    exact absurd h00 (List.not_mem_nil _)
  | cons p ps =>
    have hmem2 : ∀ q : Pt, q ∈ p :: ps ↔ inB 100 100 q := by
      intro q; rw [← hreg]; exact hmem q
    have hpin : inB 100 100 p := (hmem2 p).mp (List.mem_cons_self p ps)
    have hxlo : ∀ q ∈ ps, (0 : Int) ≤ q.x := fun q hq =>
      ((hmem2 q).mp (List.mem_cons_of_mem p hq)).1
    have hxhi : ∀ q ∈ ps, q.x ≤ 99 := fun q hq => by
      have := ((hmem2 q).mp (List.mem_cons_of_mem p hq)).2.1
      omega
    have hylo : ∀ q ∈ ps, (0 : Int) ≤ q.y := fun q hq =>
      ((hmem2 q).mp (List.mem_cons_of_mem p hq)).2.2.1
    have hyhi : ∀ q ∈ ps, q.y ≤ 99 := fun q hq => by
      have := ((hmem2 q).mp (List.mem_cons_of_mem p hq)).2.2.2
      omega
    have hminx : ps.foldl (fun a q => min a q.x) p.x = 0 := by
      have hle : ps.foldl (fun a q => min a q.x) p.x ≤ 0 := by
        rcases List.mem_cons.mp ((hmem2 ⟨0, 99⟩).mpr
            (inB_mk (by norm_num) (by norm_num) (by norm_num) (by norm_num))) with heq | hmem3
        · have : p.x = 0 := by rw [← heq]
          rw [← this]
          exact foldl_min_le_init (fun q => q.x) ps p.x
        · exact foldl_min_le_mem (fun q => q.x) ps p.x ⟨0, 99⟩ hmem3
      have hge : (0 : Int) ≤ ps.foldl (fun a q => min a q.x) p.x :=
        le_foldl_min (fun q => q.x) 0 ps p.x hpin.1 hxlo
      omega
    have hminy : ps.foldl (fun a q => min a q.y) p.y = 0 := by
      have hle : ps.foldl (fun a q => min a q.y) p.y ≤ 0 := by
        rcases List.mem_cons.mp ((hmem2 ⟨99, 0⟩).mpr
            (inB_mk (by norm_num) (by norm_num) (by norm_num) (by norm_num))) with heq | hmem3
        · have : p.y = 0 := by rw [← heq]
          rw [← this]
          exact foldl_min_le_init (fun q => q.y) ps p.y
        · exact foldl_min_le_mem (fun q => q.y) ps p.y ⟨99, 0⟩ hmem3
      have hge : (0 : Int) ≤ ps.foldl (fun a q => min a q.y) p.y :=
        le_foldl_min (fun q => q.y) 0 ps p.y hpin.2.2.1 hylo
      omega
    have hmaxx : ps.foldl (fun a q => max a q.x) p.x = 99 := by
      have hge : (99 : Int) ≤ ps.foldl (fun a q => max a q.x) p.x := by
        rcases List.mem_cons.mp ((hmem2 ⟨99, 0⟩).mpr
            (inB_mk (by norm_num) (by norm_num) (by norm_num) (by norm_num))) with heq | hmem3
        · have : p.x = 99 := by rw [← heq]
          rw [← this]
          exact init_le_foldl_max (fun q => q.x) ps p.x
        · exact mem_le_foldl_max (fun q => q.x) ps p.x ⟨99, 0⟩ hmem3
      have hle : ps.foldl (fun a q => max a q.x) p.x ≤ 99 :=
        foldl_max_le (fun q => q.x) 99 ps p.x (by have := hpin.2.1; omega) hxhi
      omega
    have hmaxy : ps.foldl (fun a q => max a q.y) p.y = 99 := by
      have hge : (99 : Int) ≤ ps.foldl (fun a q => max a q.y) p.y := by
        rcases List.mem_cons.mp ((hmem2 ⟨0, 99⟩).mpr
            (inB_mk (by norm_num) (by norm_num) (by norm_num) (by norm_num))) with heq | hmem3
        · have : p.y = 99 := by rw [← heq]
          rw [← this]
          exact init_le_foldl_max (fun q => q.y) ps p.y
        · exact mem_le_foldl_max (fun q => q.y) ps p.y ⟨0, 99⟩ hmem3
      have hle : ps.foldl (fun a q => max a q.y) p.y ≤ 99 :=
        foldl_max_le (fun q => q.y) 99 ps p.y (by have := hpin.2.2.2; omega) hyhi
      omega
    show BBoxI.mk (ps.foldl (fun a q => min a q.x) p.x) (ps.foldl (fun a q => min a q.y) p.y)
      (ps.foldl (fun a q => max a q.x) p.x - ps.foldl (fun a q => min a q.x) p.x)
      (ps.foldl (fun a q => max a q.y) p.y - ps.foldl (fun a q => min a q.y) p.y) = ⟨0, 0, 99, 99⟩
    rw [hminx, hminy, hmaxx, hmaxy]
    norm_num


/-- The fallback detection produced from the red 100×100 buffer clicked at
`(50,50)`. -/
theorem fallback100_eq : fallbackObjectDetection redData 100 100 (some ⟨50, 50⟩) =
    [⟨"fallback_0", "Detected Region", 7 / 10, ⟨0, 0, 99, 99⟩, none, "#FF6B6B"⟩] := by
  show (if 100 < (floodFill redData 100 100 50 50).length then
      [⟨"fallback_0", "Detected Region", 7 / 10,
        (calculateBoundingBox (floodFill redData 100 100 50 50)).toQ, none, "#FF6B6B"⟩]
    else ([] : List DetectedObject)) = _
  rw [flood100_length, flood100_bbox, if_pos (by norm_num)]
  norm_num [BBoxI.toQ]

/-- C5, counterexample.  The claim asserts that on the all-red 100×100 buffer,
flood fill from `(50,50)` yields the bounding box `(0,0,100,100)`; in fact
`calculateBoundingBox` computes `width = maxX - minX` and `height = maxY -
minY`, which give 99 on the full grid, so neither the box nor the fallback
detection built from it matches the claim. -/
theorem c5_bbox_counterexample :
    calculateBoundingBox (floodFill redData 100 100 50 50) ≠ ⟨0, 0, 100, 100⟩ ∧
    fallbackObjectDetection redData 100 100 (some ⟨50, 50⟩) ≠
      [⟨"fallback_0", "Detected Region", 7 / 10, ⟨0, 0, 100, 100⟩, none, "#FF6B6B"⟩] := by
  constructor
  · rw [flood100_bbox]
    intro h
    have hw := congrArg BBoxI.width h
    norm_num at hw
  · rw [fallback100_eq]
    intro h
    have := List.head_eq_of_cons_eq h
    have hb : (⟨0, 0, 99, 99⟩ : BBoxQ) = ⟨0, 0, 100, 100⟩ := congrArg DetectedObject.bbox this
    have := congrArg BBoxQ.width hb
    norm_num at this

/-- C5, amended.  On the all-red 100×100 buffer with seed `(50,50)` and the
fixed similarity threshold 50, the flood-fill region is exactly the 10000
pixels of the grid (the cap), and the resulting bounding box is
`(0, 0, 99, 99)` — the source computes width and height as `max - min`.  The
fallback detection wraps that box in a single synthetic object of confidence
0.7. -/
theorem c5_flood_region_amended :
    (floodFill redData 100 100 50 50).length = 10000 ∧
    calculateBoundingBox (floodFill redData 100 100 50 50) = ⟨0, 0, 99, 99⟩ ∧
    fallbackObjectDetection redData 100 100 (some ⟨50, 50⟩) =
      [⟨"fallback_0", "Detected Region", 7 / 10, ⟨0, 0, 99, 99⟩, none, "#FF6B6B"⟩] :=
  ⟨flood100_length, flood100_bbox, fallback100_eq⟩

/-! ## Orchestration model (`processSmartRemoval` and the provider chain)

The network and cancellation effects are oracles: `aiFetch i k` is the outcome
of attempt `k` against the provider at chain position `i` (`hfFetch` likewise
for the Hugging Face inpainting endpoint), and `abortAfter` is the instant the
cancellation token is signalled (`none` = never).  A global clock advances by
one per fetch attempt and per fallback chunk; `fetch` with an already-aborted
signal rejects immediately without issuing a request, so a request is recorded
only when the signal was not yet aborted. -/

/-- Outcome of one fetch: resolved with an OK status, resolved with a non-OK
status (the code then throws `HTTP ...`), or rejected (network error — both
error kinds take the same retry path). -/
inductive FetchOutcome
  | ok
  | httpError
  | transportError
deriving DecidableEq

/-- Whether the cancellation token is signalled at time `t`. -/
def abortedAt (abortAfter : Option Nat) (t : Nat) : Bool :=
  match abortAfter with
  | none => false
  | some a => Nat.ble a t

/-- Configuration of a legacy model (the `AIModelConfig` entries of
`AI_MODELS`). -/
structure AIModelConfig where
  name : String
  endpoint : String
  timeout : Nat
  maxRetries : Nat
  supportedFormats : List String
  type : String
deriving DecidableEq

def u2net : AIModelConfig :=
  ⟨"U2Net Background Removal", "/api/ai/u2net", 30000, 3,
    ["image/jpeg", "image/png", "image/webp"], "background_removal"⟩

def deeplab : AIModelConfig :=
  ⟨"DeepLab Semantic Segmentation", "/api/ai/deeplab", 45000, 2,
    ["image/jpeg", "image/png"], "segmentation"⟩

def rembg : AIModelConfig :=
  ⟨"RemBG Background Removal", "/api/ai/rembg", 25000, 3,
    ["image/jpeg", "image/png", "image/webp"], "background_removal"⟩

/-- The order in which `tryAIRemoval` walks the legacy models
(`['rembg', 'u2net', 'deeplab']`). -/
def AI_MODELS_ORDER : List AIModelConfig := [rembg, u2net, deeplab]

/-- One progress callback invocation. -/
structure Event where
  stage : String
  progress : ℚ
  message : String
deriving DecidableEq

/-- Result of one `callAIService` call: whether it returned success, the clock
after it, and the times of the requests it actually issued. -/
structure CallResult where
  success : Bool
  endTime : Nat
  requests : List Nat
deriving DecidableEq

/-- The retry loop of `callAIService`: up to `maxRetries` fetch attempts, with
`remaining` counting the attempts left and `k` the attempt index; exhaustion
throws (returns failure).  An attempt made after the token is aborted rejects
without issuing a request, consumes a retry and continues, exactly like a
transport error. -/
def callAIServiceLoop (fetch : Nat → FetchOutcome) (abortAfter : Option Nat) :
    Nat → Nat → Nat → CallResult
  | 0, t, _ => ⟨false, t, []⟩
  | remaining + 1, t, k =>
    if abortedAt abortAfter t then
      let r := callAIServiceLoop fetch abortAfter remaining (t + 1) (k + 1)
      ⟨r.success, r.endTime, r.requests⟩
    else if fetch k = FetchOutcome.ok then ⟨true, t + 1, [t]⟩
    else
      let r := callAIServiceLoop fetch abortAfter remaining (t + 1) (k + 1)
      ⟨r.success, r.endTime, t :: r.requests⟩

/-- Embedding of `callAIService(model, blob, maskPoints, signal)`. -/
def callAIService (fetch : Nat → FetchOutcome) (abortAfter : Option Nat)
    (maxRetries t : Nat) : CallResult :=
  callAIServiceLoop fetch abortAfter maxRetries t 0

/-- Result of the model loop of `tryAIRemoval`: success flag, final clock,
events emitted, and issued requests as (chain position, time) pairs. -/
structure ChainResult where
  success : Bool
  endTime : Nat
  events : List Event
  requests : List (Nat × Nat)
deriving DecidableEq

/-- The `for (const modelKey of models)` loop of `tryAIRemoval`: an abort check
at the top of each iteration (throwing `Processing cancelled`, caught by the
surrounding handler → failure), a progress event at 30 per model, the retried
service call, and on success a `finalization` event at 90. -/
def tryAIRemovalLoop (fetch : Nat → Nat → FetchOutcome) (abortAfter : Option Nat) :
    List AIModelConfig → Nat → Nat → ChainResult
  | [], t, _ => ⟨false, t, [], []⟩
  | m :: ms, t, idx =>
    if abortedAt abortAfter t then ⟨false, t, [], []⟩
    else
      let ev : Event := ⟨"ai_processing", 30, "Trying " ++ m.name ++ "..."⟩
      let c := callAIService (fetch idx) abortAfter m.maxRetries t
      if c.success then
        ⟨true, c.endTime, [ev, ⟨"finalization", 90, "Finalizing AI results..."⟩],
          c.requests.map fun u => (idx, u)⟩
      else
        let r := tryAIRemovalLoop fetch abortAfter ms c.endTime (idx + 1)
        ⟨r.success, r.endTime, ev :: r.events,
          (c.requests.map fun u => (idx, u)) ++ r.requests⟩

/-- Embedding of `tryAIRemoval(imageData, maskPoints, onProgress, signal)`:
a `preparation` event at 10 and then the model loop; when the loop falls off
the end the function throws `All AI models failed or are unavailable`, which
its own handler converts to a failure result. -/
def tryAIRemoval (fetch : Nat → Nat → FetchOutcome) (abortAfter : Option Nat)
    (t : Nat) : ChainResult :=
  let c := tryAIRemovalLoop fetch abortAfter AI_MODELS_ORDER t 0
  ⟨c.success, c.endTime,
    ⟨"preparation", 10, "Preparing image for AI processing..."⟩ :: c.events, c.requests⟩

/-- Result of `tryHuggingFaceRemoval`. -/
structure HFResult where
  success : Bool
  endTime : Nat
  events : List Event
  requested : List Nat
deriving DecidableEq

/-- Embedding of `tryHuggingFaceRemoval`: one `ai_processing` event at 40 and
a single fetch of the inpainting endpoint; a non-OK response throws, and the
function's own handler returns a failure result. -/
def tryHuggingFaceRemoval (hfFetch : Nat → FetchOutcome) (abortAfter : Option Nat)
    (t : Nat) : HFResult :=
  let ev : Event := ⟨"ai_processing", 40, "Processing with Hugging Face inpainting models..."⟩
  if abortedAt abortAfter t then ⟨false, t + 1, [ev], []⟩
  else if hfFetch 0 = FetchOutcome.ok then ⟨true, t + 1, [ev], [t]⟩
  else ⟨false, t + 1, [ev], [t]⟩

/-- Result of the chunk loop of `advancedLocalRemoval`. -/
structure LocalResult where
  success : Bool
  events : List Event
deriving DecidableEq

/-- The chunk loop of `advancedLocalRemoval`: per chunk, an abort check
(throwing `Processing cancelled`, caught by the surrounding handler), then a
`local_processing` event at `60 + (i / chunks.length) * 30`; after the loop a
`completion` event at 100. -/
def advancedLocalLoop (abortAfter : Option Nat) (len : Nat) :
    List Chunk → Nat → Nat → LocalResult
  | [], _, _ => ⟨true, [⟨"completion", 100, "Processing complete!"⟩]⟩
  | _ :: cs, t, i =>
    if abortedAt abortAfter t then ⟨false, []⟩
    else
      let ev : Event := ⟨"local_processing", 60 + ((i : ℚ) / (len : ℚ)) * 30,
        "Processing chunk " ++ toString (i + 1) ++ " of " ++ toString len ++ "..."⟩
      let r := advancedLocalLoop abortAfter len cs (t + 1) (i + 1)
      ⟨r.success, ev :: r.events⟩

/-- Which stage produced the terminal result of a removal run. -/
inductive Origin
  | hf
  | aiChain
  | fallback
  | errorPath
deriving DecidableEq

/-- Terminal result of one `processSmartRemoval` run, together with its event
and request traces.  On a Hugging Face or legacy-AI success the canvas pixels
come from the provider and are outside the model (`canvas = none`); on a
fallback success the canvas is the chunked local fill. -/
structure RemovalRun where
  success : Bool
  error : Option String
  canvas : Option (Nat → Nat)
  origin : Origin
  events : List Event
  hfRequests : List Nat
  aiRequests : List (Nat × Nat)

/-- Environment of one removal run: the memory reading, whether a detected
object hint was passed, the two fetch oracles, the abort instant, and the
pixel inputs of the fallback fill. -/
structure RemovalEnv where
  memoryUsage : ℚ
  hasSelectedObject : Bool
  hfFetch : Nat → FetchOutcome
  aiFetch : Nat → Nat → FetchOutcome
  abortAfter : Option Nat
  wfn : Int → Int → ℚ
  data : Nat → Nat
  width : Nat
  height : Nat

/-- The message of the fail-fast memory error in `processSmartRemoval`. -/
def memMsg : String :=
  "Insufficient memory for processing. Please close other tabs and try again."

/-- The part of `processSmartRemoval` after the Hugging Face stage: the legacy
chain, and on its failure the `fallback` event at 50 followed by
`advancedLocalRemoval`. -/
def removalTail (env : RemovalEnv) (maskPoints : List Pt) (evs : List Event)
    (hfReqs : List Nat) (t : Nat) : RemovalRun :=
  let air := tryAIRemoval env.aiFetch env.abortAfter t
  if air.success then
    ⟨true, none, none, Origin.aiChain, evs ++ air.events, hfReqs, air.requests⟩
  else
    let fev : Event := ⟨"fallback", 50,
      "AI service unavailable, using advanced local processing..."⟩
    let chunks := createProcessingChunks env.width env.height
    let lr := advancedLocalLoop env.abortAfter chunks.length chunks air.endTime 0
    if lr.success then
      ⟨true, none,
        some (advancedLocalRemovalFill env.wfn env.width env.height maskPoints env.data),
        Origin.fallback, evs ++ air.events ++ fev :: lr.events, hfReqs, air.requests⟩
    else
      ⟨false, some "Processing cancelled", none, Origin.errorPath,
        evs ++ air.events ++ fev :: lr.events, hfReqs, air.requests⟩

/-- Embedding of `processSmartRemoval(imageData, maskPoints, selectedObject,
onProgress)`: an `initialization` event at 0, the fail-fast memory check
(`memoryUsage > MAX_MEMORY_MB * 0.8`, whose throw is converted to a failure
result by the function's own handler), the optional Hugging Face stage, the
legacy chain, and the local fallback.  Note that `maskPoints` is never
validated or inspected — it is only forwarded (to providers, and to the
fallback fill, which ignores it). -/
def processSmartRemoval (env : RemovalEnv) (maskPoints : List Pt) : RemovalRun :=
  let ev0 : Event := ⟨"initialization", 0, "Initializing AI-powered removal..."⟩
  if 512 * (8 / 10 : ℚ) < env.memoryUsage then
    ⟨false, some memMsg, none, Origin.errorPath, [ev0], [], []⟩
  else if env.hasSelectedObject then
    let hfr := tryHuggingFaceRemoval env.hfFetch env.abortAfter 0
    if hfr.success then
      ⟨true, none, none, Origin.hf, ev0 :: hfr.events, hfr.requested, []⟩
    else removalTail env maskPoints (ev0 :: hfr.events) hfr.requested hfr.endTime
  else removalTail env maskPoints [ev0] [] 0


/-- If no attempt ever resolves OK, the retry loop fails. -/
theorem callLoop_fail {fetch : Nat → FetchOutcome} {ab : Option Nat}
    (h : ∀ k, fetch k ≠ FetchOutcome.ok) :
    ∀ remaining t k, (callAIServiceLoop fetch ab remaining t k).success = false := by
  intro remaining
  induction remaining with
  | zero => intro t k; rfl
  | succ n ih =>
    intro t k
    simp only [callAIServiceLoop]
    cases ha : abortedAt ab t
    · simp only [ha, if_neg (h k), Bool.false_eq_true, if_false]
      exact ih (t + 1) (k + 1)
    · simp only [ha, if_true]
      exact ih (t + 1) (k + 1)

/-- If no provider attempt ever resolves OK, the model chain fails. -/
theorem chainLoop_fail {fetch : Nat → Nat → FetchOutcome} {ab : Option Nat}
    (h : ∀ i k, fetch i k ≠ FetchOutcome.ok) :
    ∀ (ms : List AIModelConfig) (t idx : Nat),
      (tryAIRemovalLoop fetch ab ms t idx).success = false := by
  intro ms
  induction ms with
  | nil => intro t idx; rfl
  | cons m tl ih =>
    intro t idx
    simp only [tryAIRemovalLoop]
    cases ha : abortedAt ab t
    · have hc : (callAIService (fetch idx) ab m.maxRetries t).success = false :=
        callLoop_fail (h idx) _ _ _
      simp only [ha, Bool.false_eq_true, if_false, hc]
      exact ih _ _
    · simp only [ha, if_true]

/-- Without cancellation the chunk loop always completes. -/
theorem localLoop_success (len : Nat) :
    ∀ (cs : List Chunk) (t i : Nat), (advancedLocalLoop none len cs t i).success = true := by
  intro cs
  induction cs with
  | nil => intro t i; rfl
  | cons c tl ih =>
    intro t i
    simp only [advancedLocalLoop, abortedAt, Bool.false_eq_true, if_false]
    exact ih _ _

/-- A failing inpainting fetch makes the Hugging Face stage fail. -/
theorem hfRemoval_fail {hfFetch : Nat → FetchOutcome} {ab : Option Nat} {t : Nat}
    (h : ∀ k, hfFetch k ≠ FetchOutcome.ok) :
    (tryHuggingFaceRemoval hfFetch ab t).success = false := by
  simp only [tryHuggingFaceRemoval]
  cases ha : abortedAt ab t
  · simp only [ha, Bool.false_eq_true, if_false, if_neg (h 0)]
  · simp only [ha, if_true]

/-- With an all-failing chain and no cancellation, `removalTail` succeeds via
the local fallback. -/
theorem removalTail_all_fail (env : RemovalEnv) (m : List Pt) (evs : List Event)
    (reqs : List Nat) (t : Nat)
    (hai : ∀ i k, env.aiFetch i k ≠ FetchOutcome.ok)
    (hab : env.abortAfter = none) :
    (removalTail env m evs reqs t).success = true ∧
    (removalTail env m evs reqs t).origin = Origin.fallback ∧
    (removalTail env m evs reqs t).error = none := by
  have hair : (tryAIRemoval env.aiFetch none t).success = false := by
    simp only [tryAIRemoval]
    exact chainLoop_fail hai _ _ _
  simp only [removalTail, hab, hair, Bool.false_eq_true, if_false,
    localLoop_success, if_true]
  exact ⟨trivial, trivial, trivial⟩

/-- C3. If every provider request fails and the run is neither cancelled nor
blocked by the memory gate, `processSmartRemoval` succeeds via the local
fallback; provider-chain exhaustion is never surfaced as a terminal error. -/
theorem c3_fallback_on_provider_exhaustion (env : RemovalEnv) (m : List Pt)
    (hhf : ∀ k, env.hfFetch k ≠ FetchOutcome.ok)
    (hai : ∀ i k, env.aiFetch i k ≠ FetchOutcome.ok)
    (hab : env.abortAfter = none)
    (hmem : ¬ 512 * (8 / 10 : ℚ) < env.memoryUsage) :
    (processSmartRemoval env m).success = true ∧
    (processSmartRemoval env m).origin = Origin.fallback ∧
    (processSmartRemoval env m).error = none := by
  simp only [processSmartRemoval, if_neg hmem]
  cases hsel : env.hasSelectedObject
  · simp only [Bool.false_eq_true, if_false]
    exact removalTail_all_fail env m _ _ _ hai hab
  · simp only [if_true, hfRemoval_fail hhf, Bool.false_eq_true, if_false]
    exact removalTail_all_fail env m _ _ _ hai hab

/-- Witness for C3: every fetch is a transport error, no cancellation, memory
reading 0. -/
theorem c3_witness :
    (processSmartRemoval
      ⟨0, true, fun _ => FetchOutcome.transportError, fun _ _ => FetchOutcome.transportError,
        none, rowWeight, data21, 2, 1⟩ []).success = true ∧
    (processSmartRemoval
      ⟨0, true, fun _ => FetchOutcome.transportError, fun _ _ => FetchOutcome.transportError,
        none, rowWeight, data21, 2, 1⟩ []).origin = Origin.fallback ∧
    (processSmartRemoval
      ⟨0, true, fun _ => FetchOutcome.transportError, fun _ _ => FetchOutcome.transportError,
        none, rowWeight, data21, 2, 1⟩ []).error = none :=
  c3_fallback_on_provider_exhaustion _ _
    (fun _ h => FetchOutcome.noConfusion h)
    (fun _ _ h => FetchOutcome.noConfusion h)
    rfl
    (by norm_num)


/-- Evaluation of a 3-retry all-fail service call. -/
theorem callAIService_three_fail (fetch : Nat → FetchOutcome) (t : Nat)
    (h : ∀ k, fetch k ≠ FetchOutcome.ok) :
    callAIService fetch none 3 t = ⟨false, t + 3, [t, t + 1, t + 2]⟩ := by
  simp only [callAIService, callAIServiceLoop, abortedAt, Bool.false_eq_true, if_false,
    if_neg (h 0), if_neg (h 1), if_neg (h 2)]

/-- Evaluation of a first-attempt success. -/
theorem callAIService_first_ok (fetch : Nat → FetchOutcome) (t r : Nat)
    (hr : 1 ≤ r) (h : fetch 0 = FetchOutcome.ok) :
    callAIService fetch none r t = ⟨true, t + 1, [t]⟩ := by
  cases r with
  | zero => omega
  | succ n =>
    simp only [callAIService, callAIServiceLoop, abortedAt, Bool.false_eq_true, if_false,
      if_pos h]

/-- C7. With two providers configured, the first of which fails every request
(maxRetries = 3) while the second succeeds on its first attempt, the chain
issues exactly 3 requests to the first provider and exactly 1 to the second,
and the overall result is success. -/
theorem c7_retry_exhaustion_then_next (fetch : Nat → Nat → FetchOutcome)
    (t : Nat) (m1 m2 : AIModelConfig)
    (hm1 : m1.maxRetries = 3) (hm2 : 1 ≤ m2.maxRetries)
    (h1 : ∀ k, fetch 0 k ≠ FetchOutcome.ok)
    (h2 : fetch 1 0 = FetchOutcome.ok) :
    (tryAIRemovalLoop fetch none [m1, m2] t 0).success = true ∧
    ((tryAIRemovalLoop fetch none [m1, m2] t 0).requests.filter
      fun r => r.1 = 0).length = 3 ∧
    ((tryAIRemovalLoop fetch none [m1, m2] t 0).requests.filter
      fun r => r.1 = 1).length = 1 := by
  have e0 := callAIService_three_fail (fetch 0) t h1
  have e1 := callAIService_first_ok (fetch 1) (t + 3) m2.maxRetries hm2 h2
  simp only [tryAIRemovalLoop, abortedAt, Bool.false_eq_true, if_false, hm1, e0, e1]
  simp [List.filter]

/-- Witness for C7: the first provider always times out, the second answers
immediately. -/
theorem c7_witness :
    (tryAIRemovalLoop
      (fun i _ => if i = 0 then FetchOutcome.transportError else FetchOutcome.ok)
      none [rembg, u2net] 0 0).success = true ∧
    ((tryAIRemovalLoop
      (fun i _ => if i = 0 then FetchOutcome.transportError else FetchOutcome.ok)
      none [rembg, u2net] 0 0).requests.filter fun r => r.1 = 0).length = 3 ∧
    ((tryAIRemovalLoop
      (fun i _ => if i = 0 then FetchOutcome.transportError else FetchOutcome.ok)
      none [rembg, u2net] 0 0).requests.filter fun r => r.1 = 1).length = 1 :=
  c7_retry_exhaustion_then_next _ 0 rembg u2net rfl (by simp [u2net])
    (fun k h => by simp at h) (by simp)


/-- The retry loop with remaining attempts and no cancellation always issues
at least one request. -/
theorem callLoop_requests_ne (fetch : Nat → FetchOutcome) (r t k : Nat) :
    (callAIServiceLoop fetch none (r + 1) t k).requests ≠ [] := by
  simp only [callAIServiceLoop, abortedAt, Bool.false_eq_true, if_false]
  by_cases hf : fetch k = FetchOutcome.ok
  · simp [hf]
  · simp [hf]

/-- A chain headed by a provider with at least one retry always contacts that
provider when not cancelled. -/
theorem chainLoop_requests_ne (fetch : Nat → Nat → FetchOutcome) (t idx : Nat)
    (m : AIModelConfig) (ms : List AIModelConfig) (hm : 1 ≤ m.maxRetries) :
    (tryAIRemovalLoop fetch none (m :: ms) t idx).requests ≠ [] := by
  obtain ⟨r, hr⟩ : ∃ r, m.maxRetries = r + 1 := ⟨m.maxRetries - 1, by omega⟩
  have hcall : (callAIServiceLoop (fetch idx) none m.maxRetries t 0).requests ≠ [] := by
    rw [hr]
    exact callLoop_requests_ne (fetch idx) r t 0
  rw [tryAIRemovalLoop]
  simp only [abortedAt, Bool.false_eq_true, if_false]
  by_cases hs : (callAIService (fetch idx) none m.maxRetries t).success = true
  · rw [if_pos hs]
    intro he
    dsimp only at he
    rw [List.map_eq_nil_iff] at he
    exact hcall he
  · rw [if_neg hs]
    intro he
    dsimp only at he
    rw [List.append_eq_nil, List.map_eq_nil_iff] at he
    exact hcall he.1

/-- Core of C6: `processSmartRemoval` performs no validation of the mask
point count — with any mask whatsoever (three points or zero), an
un-cancelled run under the memory gate contacts the provider chain and
terminates successfully. -/
theorem c6_core (env : RemovalEnv) (m : List Pt)
    (hmem : ¬ 512 * (8 / 10 : ℚ) < env.memoryUsage)
    (hab : env.abortAfter = none)
    (hsel : env.hasSelectedObject = false) :
    (processSmartRemoval env m).success = true ∧
    (processSmartRemoval env m).error = none ∧
    (processSmartRemoval env m).aiRequests ≠ [] := by
  have hchain : (tryAIRemoval env.aiFetch none 0).requests ≠ [] := by
    show (tryAIRemovalLoop env.aiFetch none (rembg :: [u2net, deeplab]) 0 0).requests ≠ []
    exact chainLoop_requests_ne env.aiFetch 0 0 rembg [u2net, deeplab] (by norm_num [rembg])
  simp only [processSmartRemoval, if_neg hmem, hsel, Bool.false_eq_true, if_false,
    removalTail, hab]
  by_cases hs : (tryAIRemoval env.aiFetch none 0).success = true
  · rw [if_pos hs]
    exact ⟨rfl, rfl, hchain⟩
  · rw [if_neg hs, if_pos (localLoop_success _ _ _ _)]
    exact ⟨rfl, rfl, hchain⟩


/-- C6, counterexample.  A removal submission with zero mask points is not
rejected: with all providers failing and no cancellation it still contacts the
provider chain and returns success via the fallback — there is no
`InvalidSelection` validation anywhere in `processSmartRemoval`. -/
theorem c6_counterexample :
    ([] : List Pt).length < 3 ∧
    (processSmartRemoval
      ⟨0, false, fun _ => FetchOutcome.transportError,
        fun _ _ => FetchOutcome.transportError, none, rowWeight, data21, 2, 1⟩
      []).success = true ∧
    (processSmartRemoval
      ⟨0, false, fun _ => FetchOutcome.transportError,
        fun _ _ => FetchOutcome.transportError, none, rowWeight, data21, 2, 1⟩
      []).error = none ∧
    (processSmartRemoval
      ⟨0, false, fun _ => FetchOutcome.transportError,
        fun _ _ => FetchOutcome.transportError, none, rowWeight, data21, 2, 1⟩
      []).aiRequests ≠ [] := by
  refine ⟨by norm_num, ?_⟩
  exact c6_core _ _ (by norm_num) rfl rfl

/-- C6, amended.  `processSmartRemoval` never validates the mask point count:
a removal whose selection has fewer than 3 points proceeds exactly like any
other — providers are contacted and, when nothing else interferes, the run
succeeds; no `InvalidSelection` error exists in the code. -/
theorem c6_amended (env : RemovalEnv) (m : List Pt) (hm : m.length < 3)
    (hmem : ¬ 512 * (8 / 10 : ℚ) < env.memoryUsage)
    (hab : env.abortAfter = none)
    (hsel : env.hasSelectedObject = false) :
    (processSmartRemoval env m).success = true ∧
    (processSmartRemoval env m).error = none ∧
    (processSmartRemoval env m).aiRequests ≠ [] :=
  c6_core env m hmem hab hsel

/-- Witness for C6 at a one-point mask. -/
theorem c6_amended_witness :
    (processSmartRemoval
      ⟨100, false, fun _ => FetchOutcome.httpError, fun _ _ => FetchOutcome.httpError,
        none, rowWeight, data21, 2, 1⟩ [⟨1, 0⟩]).success = true ∧
    (processSmartRemoval
      ⟨100, false, fun _ => FetchOutcome.httpError, fun _ _ => FetchOutcome.httpError,
        none, rowWeight, data21, 2, 1⟩ [⟨1, 0⟩]).error = none ∧
    (processSmartRemoval
      ⟨100, false, fun _ => FetchOutcome.httpError, fun _ _ => FetchOutcome.httpError,
        none, rowWeight, data21, 2, 1⟩ [⟨1, 0⟩]).aiRequests ≠ [] :=
  c6_amended _ _ (by norm_num) (by norm_num) rfl rfl

/-- The tail of a removal run fails only with the cancellation message. -/
theorem removalTail_error_cases (env : RemovalEnv) (m : List Pt) (evs : List Event)
    (reqs : List Nat) (t : Nat) :
    (removalTail env m evs reqs t).error = none ∨
    (removalTail env m evs reqs t).error = some "Processing cancelled" := by
  simp only [removalTail]
  by_cases hs : (tryAIRemoval env.aiFetch env.abortAfter t).success = true
  · rw [if_pos hs]
    exact Or.inl rfl
  · rw [if_neg hs]
    by_cases hl : (advancedLocalLoop env.abortAfter
        (createProcessingChunks env.width env.height).length
        (createProcessingChunks env.width env.height)
        (tryAIRemoval env.aiFetch env.abortAfter t).endTime 0).success = true
    · rw [if_pos hl]
      exact Or.inl rfl
    · rw [if_neg hl]
      exact Or.inr rfl

/-- C4, counterexample.  A memory reading of 450 MB is at or below the claimed
512 MB hard limit, yet the removal submission is rejected on memory grounds
before any provider is contacted — the code gates at
`MAX_MEMORY_MB * 0.8 = 409.6`. -/
theorem c4_counterexample :
    ((450 : ℚ) ≤ 512) ∧
    (processSmartRemoval
      ⟨450, false, fun _ => FetchOutcome.ok, fun _ _ => FetchOutcome.ok,
        none, rowWeight, data21, 2, 1⟩ []).success = false ∧
    (processSmartRemoval
      ⟨450, false, fun _ => FetchOutcome.ok, fun _ _ => FetchOutcome.ok,
        none, rowWeight, data21, 2, 1⟩ []).error = some memMsg ∧
    (processSmartRemoval
      ⟨450, false, fun _ => FetchOutcome.ok, fun _ _ => FetchOutcome.ok,
        none, rowWeight, data21, 2, 1⟩ []).aiRequests = [] ∧
    (processSmartRemoval
      ⟨450, false, fun _ => FetchOutcome.ok, fun _ _ => FetchOutcome.ok,
        none, rowWeight, data21, 2, 1⟩ []).hfRequests = [] := by
  have hgate : 512 * (8 / 10 : ℚ) <
      (RemovalEnv.memoryUsage ⟨450, false, fun _ => FetchOutcome.ok,
        fun _ _ => FetchOutcome.ok, none, rowWeight, data21, 2, 1⟩) := by
    norm_num
  refine ⟨by norm_num, ?_, ?_, ?_, ?_⟩ <;>
    simp only [processSmartRemoval, if_pos hgate]


/-- Attempt times of the retry loop lie in `[t, endTime)`, and the clock never
goes backwards. -/
theorem callLoop_bounds (fetch : Nat → FetchOutcome) (ab : Option Nat) :
    ∀ remaining t k, t ≤ (callAIServiceLoop fetch ab remaining t k).endTime ∧
      ∀ u ∈ (callAIServiceLoop fetch ab remaining t k).requests,
        t ≤ u ∧ u < (callAIServiceLoop fetch ab remaining t k).endTime := by
  intro remaining
  induction remaining with
  | zero => intro t k; exact ⟨le_refl t, fun u hu => absurd hu (List.not_mem_nil u)⟩
  | succ n ih =>
    intro t k
    simp only [callAIServiceLoop]
    by_cases ha : abortedAt ab t = true
    · rw [if_pos ha]
      dsimp only
      obtain ⟨h1, h2⟩ := ih (t + 1) (k + 1)
      exact ⟨by omega, fun u hu => by have := h2 u hu; omega⟩
    · rw [if_neg ha]
      by_cases hf : fetch k = FetchOutcome.ok
      · rw [if_pos hf]
        dsimp only
        refine ⟨by omega, fun u hu => ?_⟩
        rcases List.mem_singleton.mp hu with rfl
        omega
      · rw [if_neg hf]
        dsimp only
        obtain ⟨h1, h2⟩ := ih (t + 1) (k + 1)
        refine ⟨by omega, fun u hu => ?_⟩
        rcases List.mem_cons.mp hu with rfl | hu2
        · omega
        · have := h2 u hu2
          omega

/-- A chain started after the token is signalled issues no requests. -/
theorem chainLoop_nil_of_aborted (fetch : Nat → Nat → FetchOutcome) (a : Nat)
    (ms : List AIModelConfig) (t idx : Nat) (ha : abortedAt (some a) t = true) :
    (tryAIRemovalLoop fetch (some a) ms t idx).requests = [] := by
  cases ms with
  | nil => rfl
  | cons m tl =>
    rw [tryAIRemovalLoop, if_pos ha]

/-- Requests issued by the chain from position `idx` carry positions `≥ idx`. -/
theorem chainLoop_idx_le (fetch : Nat → Nat → FetchOutcome) (ab : Option Nat) :
    ∀ (ms : List AIModelConfig) (t idx j u : Nat),
      (j, u) ∈ (tryAIRemovalLoop fetch ab ms t idx).requests → idx ≤ j := by
  intro ms
  induction ms with
  | nil => intro t idx j u h; exact absurd h (List.not_mem_nil _)
  | cons m tl ih =>
    intro t idx j u h
    rw [tryAIRemovalLoop] at h
    by_cases ha : abortedAt ab t = true
    · rw [if_pos ha] at h
      exact absurd h (List.not_mem_nil _)
    · rw [if_neg ha] at h
      dsimp only at h
      by_cases hs : (callAIService (fetch idx) ab m.maxRetries t).success = true
      · rw [if_pos hs] at h
        dsimp only at h
        obtain ⟨v, hv, he⟩ := List.mem_map.mp h
        obtain ⟨rfl, rfl⟩ := Prod.mk.injEq .. |>.mp he
        exact le_refl _
      · rw [if_neg hs] at h
        dsimp only at h
        rcases List.mem_append.mp h with hg | hr
        · obtain ⟨v, hv, he⟩ := List.mem_map.mp hg
          obtain ⟨rfl, rfl⟩ := Prod.mk.injEq .. |>.mp he
          exact le_refl _
        · exact le_trans (Nat.le_succ idx) (ih _ _ j u hr)

/-- A failed fetch outcome is not `ok` (propositional form, for `simp`). -/
theorem httpError_ne_ok : (FetchOutcome.httpError = FetchOutcome.ok) = False := by decide

/-- Reflexivity of the `ok` outcome (propositional form, for `simp`). -/
theorem ok_eq_ok : (FetchOutcome.ok = FetchOutcome.ok) = True := by decide

/-- The concrete environment of the C2 counterexample: a selected-object hint,
a failing inpainting endpoint, and a legacy chain that succeeds immediately. -/
def envC2 : RemovalEnv :=
  ⟨0, true, fun _ => FetchOutcome.httpError, fun _ _ => FetchOutcome.ok, none,
    rowWeight, data21, 2, 1⟩

theorem c2_run_events :
    (processSmartRemoval envC2 []).events.map Event.progress = [0, 40, 10, 30, 90] := by
  norm_num [processSmartRemoval, envC2, tryHuggingFaceRemoval, removalTail,
    tryAIRemoval, tryAIRemovalLoop, callAIService, callAIServiceLoop,
    AI_MODELS_ORDER, rembg, abortedAt, httpError_ne_ok, ok_eq_ok]

theorem c2_run_success : (processSmartRemoval envC2 []).success = true := by
  norm_num [processSmartRemoval, envC2, tryHuggingFaceRemoval, removalTail,
    tryAIRemoval, tryAIRemovalLoop, callAIService, callAIServiceLoop,
    AI_MODELS_ORDER, rembg, abortedAt, httpError_ne_ok, ok_eq_ok]

/-- C2, counterexample.  With a selected-object hint whose Hugging Face
removal fails and a first legacy provider that succeeds immediately, the
delivered progress sequence is `0, 40, 10, 30, 90`: it regresses from 40 to
10, and the successful run ends at 90, not 100. -/
theorem c2_counterexample :
    (processSmartRemoval envC2 []).success = true ∧
    (processSmartRemoval envC2 []).events.map Event.progress = [0, 40, 10, 30, 90] ∧
    ¬ (List.Chain' (· ≤ ·) ((processSmartRemoval envC2 []).events.map Event.progress) ∧
      ((processSmartRemoval envC2 []).success = true →
        ((processSmartRemoval envC2 []).events.map Event.progress).getLast? = some 100)) := by
  refine ⟨c2_run_success, c2_run_events, ?_⟩
  rintro ⟨hch, _⟩
  rw [c2_run_events] at hch
  norm_num [List.chain'_cons, List.chain'_singleton] at hch

/-- The per-chunk progress value is at most 100 while `i ≤ len`. -/
theorem chunkProgress_le_100 {i len : Nat} (h : i ≤ len) :
    60 + ((i : ℚ) / (len : ℚ)) * 30 ≤ 100 := by
  rcases Nat.eq_zero_or_pos len with rfl | hpos
  · obtain rfl : i = 0 := by omega
    norm_num
  · have hl : (0 : ℚ) < len := by exact_mod_cast hpos
    have hi : (i : ℚ) / (len : ℚ) ≤ 1 := by
      rw [div_le_one hl]
      exact_mod_cast h
    nlinarith

/-- The per-chunk progress value is monotone in the chunk index. -/
theorem chunkProgress_mono {i j len : Nat} (hij : i ≤ j) :
    60 + ((i : ℚ) / (len : ℚ)) * 30 ≤ 60 + ((j : ℚ) / (len : ℚ)) * 30 := by
  rcases Nat.eq_zero_or_pos len with rfl | hpos
  · norm_num
  · have hl : (0 : ℚ) < len := by exact_mod_cast hpos
    have hq : (i : ℚ) / (len : ℚ) ≤ (j : ℚ) / (len : ℚ) := by
      rw [div_le_div_iff_of_pos_right hl]
      exact_mod_cast hij
    nlinarith

/-- Monotone-head gluing for nondecreasing chains. -/
theorem chain'_cons_of_forall {a : ℚ} {l : List ℚ} (hl : List.Chain' (· ≤ ·) l)
    (hm : ∀ q ∈ l, a ≤ q) : List.Chain' (· ≤ ·) (a :: l) := by
  rw [List.chain'_cons']
  exact ⟨fun y hy => hm y (List.mem_of_mem_head? hy), hl⟩

/-- A constant block followed by larger values is a nondecreasing chain. -/
theorem chain'_rep_append (x : ℚ) (l : List ℚ) (hl : List.Chain' (· ≤ ·) l)
    (hx : ∀ q ∈ l, x ≤ q) :
    ∀ k : Nat, List.Chain' (· ≤ ·) (List.replicate k x ++ l) := by
  intro k
  induction k with
  | zero => simpa
  | succ n ihn =>
    rw [List.replicate_succ, List.cons_append]
    apply chain'_cons_of_forall ihn
    intro q hq
    rcases List.mem_append.mp hq with hq1 | hq2
    · rw [List.eq_of_mem_replicate hq1]
    · exact hx q hq2

/-- Shape of the progress values of the model loop: a block of 30s, closed by
a single 90 exactly on success. -/
theorem chainLoop_events_shape (fetch : Nat → Nat → FetchOutcome) (ab : Option Nat) :
    ∀ (ms : List AIModelConfig) (t idx : Nat), ∃ k,
      (tryAIRemovalLoop fetch ab ms t idx).events.map Event.progress =
        List.replicate k (30 : ℚ) ++
          (if (tryAIRemovalLoop fetch ab ms t idx).success = true then [(90 : ℚ)] else []) := by
  intro ms
  induction ms with
  | nil => exact fun t idx => ⟨0, by simp [tryAIRemovalLoop]⟩
  | cons m tl ih =>
    intro t idx
    by_cases ha : abortedAt ab t = true
    · refine ⟨0, ?_⟩
      rw [tryAIRemovalLoop, if_pos ha]
      simp
    · by_cases hs : (callAIService (fetch idx) ab m.maxRetries t).success = true
      · refine ⟨1, ?_⟩
        rw [tryAIRemovalLoop, if_neg ha]
        dsimp only
        rw [if_pos hs]
        simp
      · obtain ⟨k, hk⟩ := ih (callAIService (fetch idx) ab m.maxRetries t).endTime (idx + 1)
        refine ⟨k + 1, ?_⟩
        rw [tryAIRemovalLoop, if_neg ha]
        dsimp only
        rw [if_neg hs]
        dsimp only
        rw [List.map_cons, hk, List.replicate_succ, List.cons_append]

/-- Chain, bounds and final value of the chunk-loop progress values. -/
theorem localLoop_events (ab : Option Nat) (len : Nat) :
    ∀ (cs : List Chunk) (t i : Nat), i + cs.length ≤ len →
      List.Chain' (· ≤ ·) ((advancedLocalLoop ab len cs t i).events.map Event.progress) ∧
      (∀ q ∈ (advancedLocalLoop ab len cs t i).events.map Event.progress,
        60 + ((i : ℚ) / (len : ℚ)) * 30 ≤ q ∧ q ≤ 100) ∧
      ((advancedLocalLoop ab len cs t i).success = true →
        ((advancedLocalLoop ab len cs t i).events.map Event.progress).getLast? = some 100) := by
  intro cs
  induction cs with
  | nil =>
    intro t i hlen
    refine ⟨by simp [advancedLocalLoop], ?_, ?_⟩
    · intro q hq
      simp only [advancedLocalLoop, List.map_cons, List.map_nil] at hq
      rcases List.mem_singleton.mp hq with rfl
      exact ⟨chunkProgress_le_100 (by omega), le_refl _⟩
    · intro _
      simp [advancedLocalLoop]
  | cons c tl ih =>
    intro t i hlen
    simp only [advancedLocalLoop]
    by_cases ha : abortedAt ab t = true
    · rw [if_pos ha]
      refine ⟨by simp, by simp, ?_⟩
      intro hcontra
      exact absurd hcontra (by simp)
    · rw [if_neg ha]
      dsimp only
      obtain ⟨ch, bnd, lst⟩ := ih (t + 1) (i + 1) (by simp at hlen ⊢; omega)
      have hmono := @chunkProgress_mono i (i + 1) len (Nat.le_succ i)
      have hile : i ≤ len := by simp at hlen; omega
      refine ⟨?_, ?_, ?_⟩
      · rw [List.map_cons]
        apply chain'_cons_of_forall ch
        intro q hq
        have hcast : ((i + 1 : Nat) : ℚ) = (i : ℚ) + 1 := by push_cast; ring
        calc 60 + ((i : ℚ) / (len : ℚ)) * 30
            ≤ 60 + (((i + 1 : Nat) : ℚ) / (len : ℚ)) * 30 := hmono
          _ ≤ q := (bnd q hq).1
      · intro q hq
        rw [List.map_cons] at hq
        rcases List.mem_cons.mp hq with rfl | hq2
        · exact ⟨le_refl _, chunkProgress_le_100 hile⟩
        · obtain ⟨h1, h2⟩ := bnd q hq2
          exact ⟨le_trans hmono h1, h2⟩
      · intro hsucc
        have hlast := lst hsucc
        rw [List.map_cons]
        have hne : (advancedLocalLoop ab len tl (t + 1) (i + 1)).events.map Event.progress ≠ [] := by
          intro h0
          rw [h0] at hlast
          exact Option.noConfusion hlast
        obtain ⟨x, xs, hxs⟩ := List.exists_cons_of_ne_nil hne
        rw [hxs, List.getLast?_cons_cons, ← hxs, hlast]


/-- When the legacy chain succeeds, `removalTail` reports an `aiChain` success
with the chain events appended. -/
theorem removalTail_chain_success (env : RemovalEnv) (m : List Pt) (evs : List Event)
    (reqs : List Nat) (t : Nat)
    (h : (tryAIRemoval env.aiFetch env.abortAfter t).success = true) :
    (removalTail env m evs reqs t).success = true ∧
    (removalTail env m evs reqs t).origin = Origin.aiChain ∧
    (removalTail env m evs reqs t).events =
      evs ++ (tryAIRemoval env.aiFetch env.abortAfter t).events := by
  simp only [removalTail, h, if_true]
  exact ⟨trivial, trivial, trivial⟩

/-- When the legacy chain fails, `removalTail` appends the `fallback` event and
the chunk-loop events, succeeds iff the chunk loop does, and lands on the
`fallback` or `errorPath` origin accordingly. -/
theorem removalTail_chain_fail (env : RemovalEnv) (m : List Pt) (evs : List Event)
    (reqs : List Nat) (t : Nat)
    (h : (tryAIRemoval env.aiFetch env.abortAfter t).success = false) :
    (removalTail env m evs reqs t).success =
      (advancedLocalLoop env.abortAfter (createProcessingChunks env.width env.height).length
        (createProcessingChunks env.width env.height)
        (tryAIRemoval env.aiFetch env.abortAfter t).endTime 0).success ∧
    (removalTail env m evs reqs t).origin =
      (if (advancedLocalLoop env.abortAfter (createProcessingChunks env.width env.height).length
          (createProcessingChunks env.width env.height)
          (tryAIRemoval env.aiFetch env.abortAfter t).endTime 0).success = true
        then Origin.fallback else Origin.errorPath) ∧
    (removalTail env m evs reqs t).events =
      evs ++ (tryAIRemoval env.aiFetch env.abortAfter t).events ++
        (⟨"fallback", 50, "AI service unavailable, using advanced local processing..."⟩ :
          Event) ::
        (advancedLocalLoop env.abortAfter (createProcessingChunks env.width env.height).length
          (createProcessingChunks env.width env.height)
          (tryAIRemoval env.aiFetch env.abortAfter t).endTime 0).events := by
  simp only [removalTail, h, Bool.false_eq_true, if_false]
  cases hlr : (advancedLocalLoop env.abortAfter
      (createProcessingChunks env.width env.height).length
      (createProcessingChunks env.width env.height)
      (tryAIRemoval env.aiFetch env.abortAfter t).endTime 0).success
  · simp only [hlr, Bool.false_eq_true, if_false]
    exact ⟨trivial, trivial, trivial⟩
  · simp only [hlr, if_true]
    exact ⟨trivial, trivial, trivial⟩

/-- Without a selected object and with the memory gate passed,
`processSmartRemoval` is the post-Hugging-Face tail started at time 0. -/
theorem psr_no_sel (env : RemovalEnv) (m : List Pt)
    (hmem : ¬ 512 * (8 / 10 : ℚ) < env.memoryUsage)
    (hsel : env.hasSelectedObject = false) :
    processSmartRemoval env m =
      removalTail env m [⟨"initialization", 0, "Initializing AI-powered removal..."⟩] [] 0 := by
  simp only [processSmartRemoval, if_neg hmem, hsel, Bool.false_eq_true, if_false]

/-- C2, amended.  Without a selected object (so the Hugging Face stage and its
40 → 10 regression are skipped) the delivered progress values are
nondecreasing, and a successful run ends at 100 when it came from the local
fallback but at 90 when a legacy AI model produced the result. -/
theorem c2_amended (env : RemovalEnv) (m : List Pt)
    (hsel : env.hasSelectedObject = false) :
    List.Chain' (· ≤ ·) ((processSmartRemoval env m).events.map Event.progress) ∧
    ((processSmartRemoval env m).success = true →
      ((processSmartRemoval env m).origin = Origin.fallback →
        ((processSmartRemoval env m).events.map Event.progress).getLast? = some 100) ∧
      ((processSmartRemoval env m).origin = Origin.aiChain →
        ((processSmartRemoval env m).events.map Event.progress).getLast? = some 90)) := by
  by_cases hmem : 512 * (8 / 10 : ℚ) < env.memoryUsage
  · constructor
    · simp [processSmartRemoval, hmem]
    · intro hs
      simp [processSmartRemoval, hmem] at hs
  · rw [psr_no_sel env m hmem hsel]
    obtain ⟨k, hk⟩ := chainLoop_events_shape env.aiFetch env.abortAfter AI_MODELS_ORDER 0 0
    have hair : (tryAIRemoval env.aiFetch env.abortAfter 0).events.map Event.progress =
        10 :: (List.replicate k (30 : ℚ) ++
          (if (tryAIRemoval env.aiFetch env.abortAfter 0).success = true
            then [(90 : ℚ)] else [])) := by
      simp only [tryAIRemoval, List.map_cons, hk]
    cases hcs : (tryAIRemoval env.aiFetch env.abortAfter 0).success
    · obtain ⟨hsu, hor, hev⟩ := removalTail_chain_fail env m _ [] 0 hcs
      obtain ⟨lch, lbnd, llast⟩ := localLoop_events env.abortAfter
        (createProcessingChunks env.width env.height).length
        (createProcessingChunks env.width env.height)
        (tryAIRemoval env.aiFetch env.abortAfter 0).endTime 0 (by omega)
      rw [hcs, if_neg (by simp)] at hair
      rw [hev]
      have hmap : ((([⟨"initialization", 0, "Initializing AI-powered removal..."⟩] :
            List Event) ++ (tryAIRemoval env.aiFetch env.abortAfter 0).events) ++
          (⟨"fallback", 50, "AI service unavailable, using advanced local processing..."⟩ :
            Event) ::
          (advancedLocalLoop env.abortAfter
            (createProcessingChunks env.width env.height).length
            (createProcessingChunks env.width env.height)
            (tryAIRemoval env.aiFetch env.abortAfter 0).endTime 0).events).map
            Event.progress =
          (0 : ℚ) :: 10 :: (List.replicate k (30 : ℚ) ++ (50 : ℚ) ::
            (advancedLocalLoop env.abortAfter
              (createProcessingChunks env.width env.height).length
              (createProcessingChunks env.width env.height)
              (tryAIRemoval env.aiFetch env.abortAfter 0).endTime 0).events.map
              Event.progress) := by
        simp only [List.map_append, List.map_cons, List.map_singleton, hair]
        simp
      rw [hmap]
      have htail50 : List.Chain' (· ≤ ·) ((50 : ℚ) ::
          (advancedLocalLoop env.abortAfter
            (createProcessingChunks env.width env.height).length
            (createProcessingChunks env.width env.height)
            (tryAIRemoval env.aiFetch env.abortAfter 0).endTime 0).events.map
            Event.progress) := by
        apply chain'_cons_of_forall lch
        intro q hq
        have := (lbnd q hq).1
        simp only [Nat.cast_zero, zero_div, zero_mul, add_zero] at this
        linarith
      have hmem50 : ∀ q ∈ (50 : ℚ) ::
          (advancedLocalLoop env.abortAfter
            (createProcessingChunks env.width env.height).length
            (createProcessingChunks env.width env.height)
            (tryAIRemoval env.aiFetch env.abortAfter 0).endTime 0).events.map
            Event.progress, (30 : ℚ) ≤ q := by
        intro q hq
        rcases List.mem_cons.mp hq with rfl | hq2
        · norm_num
        · have := (lbnd q hq2).1
          simp only [Nat.cast_zero, zero_div, zero_mul, add_zero] at this
          linarith
      have hrep := chain'_rep_append (30 : ℚ) _ htail50 hmem50 k
      constructor
      · apply chain'_cons_of_forall
        · apply chain'_cons_of_forall hrep
          intro q hq
          rcases List.mem_append.mp hq with hq1 | hq2
          · rw [List.eq_of_mem_replicate hq1]; norm_num
          · have := hmem50 q hq2; linarith
        · intro q hq
          rcases List.mem_cons.mp hq with rfl | hq3
          · norm_num
          · rcases List.mem_append.mp hq3 with hq1 | hq2
            · rw [List.eq_of_mem_replicate hq1]; norm_num
            · have := hmem50 q hq2; linarith
      · intro hs
        rw [hsu] at hs
        rw [hs, if_pos rfl] at hor
        refine ⟨fun _ => ?_, fun hcontra => ?_⟩
        · have h100 := llast hs
          have hne : (advancedLocalLoop env.abortAfter
              (createProcessingChunks env.width env.height).length
              (createProcessingChunks env.width env.height)
              (tryAIRemoval env.aiFetch env.abortAfter 0).endTime 0).events.map
              Event.progress ≠ [] := by
            intro h0
            rw [h0] at h100
            exact Option.noConfusion h100
          rw [show ((0 : ℚ) :: 10 :: (List.replicate k (30 : ℚ) ++ (50 : ℚ) ::
              (advancedLocalLoop env.abortAfter
                (createProcessingChunks env.width env.height).length
                (createProcessingChunks env.width env.height)
                (tryAIRemoval env.aiFetch env.abortAfter 0).endTime 0).events.map
                Event.progress)) =
              ((0 : ℚ) :: 10 :: List.replicate k (30 : ℚ) ++ [(50 : ℚ)]) ++
              (advancedLocalLoop env.abortAfter
                (createProcessingChunks env.width env.height).length
                (createProcessingChunks env.width env.height)
                (tryAIRemoval env.aiFetch env.abortAfter 0).endTime 0).events.map
                Event.progress by simp]
          rw [List.getLast?_append_of_ne_nil _ hne, h100]
        · rw [hor] at hcontra
          exact Origin.noConfusion hcontra
    · obtain ⟨hsu, hor, hev⟩ := removalTail_chain_success env m _ [] 0 hcs
      rw [hcs, if_pos rfl] at hair
      rw [hev]
      have hmap : ((([⟨"initialization", 0, "Initializing AI-powered removal..."⟩] :
            List Event) ++ (tryAIRemoval env.aiFetch env.abortAfter 0).events).map
            Event.progress) =
          (0 : ℚ) :: 10 :: (List.replicate k (30 : ℚ) ++ [(90 : ℚ)]) := by
        simp only [List.map_append, List.map_singleton, hair]
        simp
      rw [hmap]
      constructor
      · apply chain'_cons_of_forall
        · apply chain'_cons_of_forall
          · exact chain'_rep_append (30 : ℚ) [(90 : ℚ)] (List.chain'_singleton _)
              (by intro q hq; rcases List.mem_singleton.mp hq with rfl; norm_num) k
          · intro q hq
            rcases List.mem_append.mp hq with hq1 | hq2
            · rw [List.eq_of_mem_replicate hq1]; norm_num
            · rcases List.mem_singleton.mp hq2 with rfl; norm_num
        · intro q hq
          rcases List.mem_cons.mp hq with rfl | hq3
          · norm_num
          · rcases List.mem_append.mp hq3 with hq1 | hq2
            · rw [List.eq_of_mem_replicate hq1]; norm_num
            · rcases List.mem_singleton.mp hq2 with rfl; norm_num
      · intro _
        refine ⟨fun hcontra => ?_, fun _ => ?_⟩
        · rw [hor] at hcontra
          exact Origin.noConfusion hcontra
        · rw [show ((0 : ℚ) :: 10 :: (List.replicate k (30 : ℚ) ++ [(90 : ℚ)])) =
            ((0 : ℚ) :: 10 :: List.replicate k (30 : ℚ)) ++ [(90 : ℚ)] by simp]
          exact List.getLast?_concat _

/-- A concrete no-selected-object environment for the amended C2 statement. -/
def envC2w : RemovalEnv :=
  ⟨0, false, fun _ => FetchOutcome.httpError, fun _ _ => FetchOutcome.ok, none,
    rowWeight, data21, 2, 1⟩

theorem c2_amended_witness :
    List.Chain' (· ≤ ·) ((processSmartRemoval envC2w []).events.map Event.progress) :=
  (c2_amended envC2w [] rfl).1


/-! ## Object detection (`detectObjects` and helpers) -/

/-- A Hugging Face model record, as in `HUGGINGFACE_MODELS`. -/
structure HuggingFaceModel where
  id : String
  name : String
  type : String
  endpoint : String
deriving DecidableEq

/-- The `segformer` entry of `HUGGINGFACE_MODELS`. -/
def segformer : HuggingFaceModel :=
  ⟨"nvidia/segformer-b1-finetuned-cityscapes-1024-1024", "SegFormer B1", "segformer",
    "/api/ai/huggingface/segformer"⟩

/-- The `detr_panoptic` entry of `HUGGINGFACE_MODELS`. -/
def detr_panoptic : HuggingFaceModel :=
  ⟨"facebook/detr-resnet-50-panoptic", "DETR Panoptic", "detr",
    "/api/ai/huggingface/detr-panoptic"⟩

/-- The `mask2former` entry of `HUGGINGFACE_MODELS`. -/
def mask2former : HuggingFaceModel :=
  ⟨"facebook/mask2former-swin-tiny-ade-semantic", "Mask2Former", "mask2former",
    "/api/ai/huggingface/mask2former"⟩

/-- The `sam` entry of `HUGGINGFACE_MODELS`. -/
def sam : HuggingFaceModel :=
  ⟨"facebook/sam-vit-base", "Segment Anything Model", "sam", "/api/ai/huggingface/sam"⟩

/-- One entry of `response.predictions` (the DETR format). -/
structure HFPrediction where
  label : String
  score : ℚ
  xmin : ℚ
  ymin : ℚ
  xmax : ℚ
  ymax : ℚ
deriving DecidableEq

/-- One entry of `response.segments` (the SegFormer / Mask2Former format);
`score`, `bbox` and `mask` may be absent. -/
structure HFSegment where
  label : String
  score : Option ℚ
  bbox : Option BBoxQ
  mask : Option (List (List ℚ))
deriving DecidableEq

/-- One entry of `response.masks` (the SAM format). -/
structure HFMask where
  score : Option ℚ
  bbox : BBoxQ
  segmentation : Option (List (List ℚ))
deriving DecidableEq

/-- A parsed provider response body; each of the three arrays may be absent. -/
structure HFResponse where
  predictions : Option (List HFPrediction)
  segments : Option (List HFSegment)
  masks : Option (List HFMask)
deriving DecidableEq

/-- JavaScript `x || d` on an optional number: absent, or present but zero
(falsy), yields the default. -/
def jsOrQ (o : Option ℚ) (d : ℚ) : ℚ :=
  match o with
  | none => d
  | some q => if q = 0 then d else q

/-- The color palette of `parseHuggingFaceResponse`. -/
def colors : List String :=
  ["#FF6B6B", "#4ECDC4", "#45B7D1", "#96CEB4", "#FFEAA7", "#DDA0DD", "#98D8C8"]

/-- Embedding of `parseHuggingFaceResponse(response, modelType)`: a `switch` on
the model type reading `predictions`, `segments` or `masks`; any other type, or
an absent array, yields no objects. -/
def parseHuggingFaceResponse (response : HFResponse) (modelType : String) :
    List DetectedObject :=
  if modelType = "detr" then
    match response.predictions with
    | none => []
    | some ps => ps.enum.map fun ip =>
        ⟨"detr_" ++ toString ip.1, ip.2.label, ip.2.score,
          ⟨ip.2.xmin, ip.2.ymin, ip.2.xmax - ip.2.xmin, ip.2.ymax - ip.2.ymin⟩,
          none, colors.getD (ip.1 % colors.length) ""⟩
  else if modelType = "segformer" ∨ modelType = "mask2former" then
    match response.segments with
    | none => []
    | some ss => ss.enum.map fun ip =>
        ⟨modelType ++ "_" ++ toString ip.1, ip.2.label, jsOrQ ip.2.score (8 / 10),
          ip.2.bbox.getD ⟨0, 0, 100, 100⟩, ip.2.mask,
          colors.getD (ip.1 % colors.length) ""⟩
  else if modelType = "sam" then
    match response.masks with
    | none => []
    | some ms => ms.enum.map fun ip =>
        ⟨"sam_" ++ toString ip.1, "Detected Object", jsOrQ ip.2.score (9 / 10),
          ip.2.bbox, ip.2.segmentation, colors.getD (ip.1 % colors.length) ""⟩
  else []

/-- Environment of one `detectObjects` run: the memory reading (present in the
service but never consulted by detection), the optional click point, the fetch
and response oracles per chain position, the cancellation oracle, and the
image. -/
structure DetectEnv where
  memoryUsage : ℚ
  clickPoint : Option Pt
  hfFetch : Nat → FetchOutcome
  hfResponse : Nat → HFResponse
  abortAfter : Option Nat
  data : Nat → Nat
  width : Nat
  height : Nat

/-- The model loop of `tryHuggingFaceDetection`: an abort check at the top of
each iteration (`break`, after which the function returns `[]`); a successful
fetch returns the parse of its response — even when that parse is empty, since
a JavaScript array is truthy — and a thrown error continues with the next
model. -/
def tryHFDetectionLoop (env : DetectEnv) :
    List HuggingFaceModel → Nat → Nat → List DetectedObject
  | [], _, _ => []
  | m :: ms, t, idx =>
    if abortedAt env.abortAfter t then []
    else if env.hfFetch idx = FetchOutcome.ok then
      parseHuggingFaceResponse (env.hfResponse idx) m.type
    else tryHFDetectionLoop env ms (t + 1) (idx + 1)

/-- The model order of `tryHuggingFaceDetection`: point-based detection uses
`sam, mask2former, detr_panoptic`; general detection uses `detr_panoptic,
mask2former, segformer`. -/
def detectionModels (clickPoint : Option Pt) : List HuggingFaceModel :=
  if clickPoint.isSome then [sam, mask2former, detr_panoptic]
  else [detr_panoptic, mask2former, segformer]

/-- Embedding of `detectObjects(imageData, clickPoint, onProgress)`: the
Hugging Face chain, then — when it produced no objects — the local fallback;
the surrounding handler turns any error into `[]`.  Note that no memory check
occurs anywhere on this path. -/
def detectObjects (env : DetectEnv) : List DetectedObject :=
  let ds := tryHFDetectionLoop env (detectionModels env.clickPoint) 0 0
  if 0 < ds.length then ds
  else fallbackObjectDetection env.data env.width env.height env.clickPoint

/-- The detection chain yields `[]` whenever every position either fails to
fetch or parses to an empty list, regardless of models, clock, or index. -/
theorem tryHFDetectionLoop_empty (env : DetectEnv)
    (h : ∀ k m, env.hfFetch k = FetchOutcome.ok →
      parseHuggingFaceResponse (env.hfResponse k) m = []) :
    ∀ (ms : List HuggingFaceModel) (t idx : Nat), tryHFDetectionLoop env ms t idx = [] := by
  intro ms
  induction ms with
  | nil => intro t idx; rfl
  | cons m tl ih =>
    intro t idx
    rw [tryHFDetectionLoop]
    by_cases ha : abortedAt env.abortAfter t = true
    · rw [if_pos ha]
    · rw [if_neg ha]
      by_cases hf : env.hfFetch idx = FetchOutcome.ok
      · rw [if_pos hf]
        exact h idx m.type hf
      · rw [if_neg hf]
        exact ih _ _

/-- C10: when every provider position either errors or returns a response that
parses to no objects (transport errors, malformed bodies, and cancellation all
land here), and the local fallback finds nothing — no click point, or a
too-small flood-fill region — `detectObjects` resolves to the empty list, the
same value as a successful detection that found nothing. -/
theorem c10_detection_resolves_empty (env : DetectEnv)
    (hprov : ∀ k m, env.hfFetch k = FetchOutcome.ok →
      parseHuggingFaceResponse (env.hfResponse k) m = [])
    (hfb : env.clickPoint = none ∨ ∀ c, env.clickPoint = some c →
      (floodFill env.data env.width env.height c.x c.y).length ≤ 100) :
    detectObjects env = [] := by
  have hds := tryHFDetectionLoop_empty env hprov (detectionModels env.clickPoint) 0 0
  rw [detectObjects]
  rw [hds]
  simp only [List.length_nil, lt_self_iff_false, if_false]
  cases hcp : env.clickPoint with
  | none => rfl
  | some c =>
    rcases hfb with hnone | hsmall
    · rw [hcp] at hnone
      exact Option.noConfusion hnone
    · have hle := hsmall c hcp
      simp only [fallbackObjectDetection]
      rw [if_neg (by omega)]

/-- A concrete all-failing detection environment. -/
def envC10 : DetectEnv :=
  ⟨0, none, fun _ => FetchOutcome.transportError, fun _ => ⟨none, none, none⟩,
    none, data21, 2, 1⟩

theorem c10_witness : detectObjects envC10 = [] := by
  apply c10_detection_resolves_empty
  · intro k m hk
    exact absurd hk (by simp [envC10])
  · exact Or.inl rfl


/-- The detection chain reads only the fetch, response and cancellation
oracles of its environment. -/
theorem tryHFDetectionLoop_congr (e1 e2 : DetectEnv)
    (hf : e1.hfFetch = e2.hfFetch) (hr : e1.hfResponse = e2.hfResponse)
    (hab : e1.abortAfter = e2.abortAfter) :
    ∀ (ms : List HuggingFaceModel) (t idx : Nat),
      tryHFDetectionLoop e1 ms t idx = tryHFDetectionLoop e2 ms t idx := by
  intro ms
  induction ms with
  | nil => intro t idx; rfl
  | cons m tl ih =>
    intro t idx
    rw [tryHFDetectionLoop, tryHFDetectionLoop, hf, hr, hab]
    by_cases ha : abortedAt e2.abortAfter t = true
    · rw [if_pos ha, if_pos ha]
    · rw [if_neg ha, if_neg ha]
      by_cases hk : e2.hfFetch idx = FetchOutcome.ok
      · rw [if_pos hk, if_pos hk]
      · rw [if_neg hk, if_neg hk]
        exact ih _ _

/-- `detectObjects` never consults the memory reading. -/
theorem detectObjects_mem_independent (denv : DetectEnv) (q : ℚ) :
    detectObjects ⟨q, denv.clickPoint, denv.hfFetch, denv.hfResponse,
      denv.abortAfter, denv.data, denv.width, denv.height⟩ = detectObjects denv := by
  rw [detectObjects, detectObjects]
  rw [tryHFDetectionLoop_congr ⟨q, denv.clickPoint, denv.hfFetch, denv.hfResponse,
    denv.abortAfter, denv.data, denv.width, denv.height⟩ denv rfl rfl rfl]

/-- C4, amended.  The removal gate is `memoryUsage > MAX_MEMORY_MB * 0.8`
(409.6 MB, not 512): above it the submission fails at once with the memory
message and no provider request; at or below it the run is never rejected on
memory grounds.  Detection has no memory check at all — `detectObjects` is
unchanged under any replacement of the memory reading. -/
theorem c4_memory_gate_amended (env : RemovalEnv) (m : List Pt)
    (denv : DetectEnv) (q : ℚ) :
    (512 * (8 / 10 : ℚ) < env.memoryUsage →
      (processSmartRemoval env m).success = false ∧
      (processSmartRemoval env m).error = some memMsg ∧
      (processSmartRemoval env m).hfRequests = [] ∧
      (processSmartRemoval env m).aiRequests = []) ∧
    (¬ 512 * (8 / 10 : ℚ) < env.memoryUsage →
      (processSmartRemoval env m).error ≠ some memMsg) ∧
    detectObjects ⟨q, denv.clickPoint, denv.hfFetch, denv.hfResponse,
      denv.abortAfter, denv.data, denv.width, denv.height⟩ = detectObjects denv := by
  refine ⟨?_, ?_, detectObjects_mem_independent denv q⟩
  · intro hmem
    refine ⟨?_, ?_, ?_, ?_⟩ <;> simp only [processSmartRemoval, if_pos hmem]
  · intro hmem hcontra
    simp only [processSmartRemoval, if_neg hmem] at hcontra
    cases hsel : env.hasSelectedObject
    · rw [hsel] at hcontra
      simp only [Bool.false_eq_true, if_false] at hcontra
      rcases removalTail_error_cases env m
          [⟨"initialization", 0, "Initializing AI-powered removal..."⟩] [] 0 with h0 | h0 <;>
        rw [h0] at hcontra
      · exact Option.noConfusion hcontra
      · exact absurd (Option.some.inj hcontra).symm (by decide)
    · rw [hsel] at hcontra
      simp only [if_true] at hcontra
      by_cases hhf : (tryHuggingFaceRemoval env.hfFetch env.abortAfter 0).success = true
      · rw [if_pos hhf] at hcontra
        exact Option.noConfusion hcontra
      · rw [if_neg hhf] at hcontra
        rcases removalTail_error_cases env m
            (⟨"initialization", 0, "Initializing AI-powered removal..."⟩ ::
              (tryHuggingFaceRemoval env.hfFetch env.abortAfter 0).events)
            (tryHuggingFaceRemoval env.hfFetch env.abortAfter 0).requested
            (tryHuggingFaceRemoval env.hfFetch env.abortAfter 0).endTime with h0 | h0 <;>
          rw [h0] at hcontra
        · exact Option.noConfusion hcontra
        · exact absurd (Option.some.inj hcontra).symm (by decide)

/-- A removal environment above the 409.6 MB gate. -/
def envC4 : RemovalEnv :=
  ⟨500, false, fun _ => FetchOutcome.ok, fun _ _ => FetchOutcome.ok, none,
    rowWeight, data21, 2, 1⟩

/-- A detection environment used to instantiate the memory-independence
conjunct. -/
def denvC4 : DetectEnv :=
  ⟨500, none, fun _ => FetchOutcome.ok, fun _ => ⟨none, none, none⟩, none, data21, 2, 1⟩

theorem c4_memory_gate_amended_witness :
    (processSmartRemoval envC4 []).success = false ∧
    (processSmartRemoval envC4 []).error = some memMsg ∧
    detectObjects ⟨7, denvC4.clickPoint, denvC4.hfFetch, denvC4.hfResponse,
      denvC4.abortAfter, denvC4.data, denvC4.width, denvC4.height⟩ =
      detectObjects denvC4 := by
  have h := c4_memory_gate_amended envC4 [] denvC4 7
  have h1 := h.1 (by norm_num [envC4])
  exact ⟨h1.1, h1.2.1, h.2.2⟩


/-- Result of the `tryHuggingFaceDetection` model loop together with its
request trace: the detected objects and the issued requests as
(chain position, time) pairs — `callHuggingFaceService` issues exactly one
fetch per non-aborted iteration. -/
structure HFDetectResult where
  objects : List DetectedObject
  requests : List (Nat × Nat)
deriving DecidableEq

/-- The model loop of `tryHuggingFaceDetection`, instrumented with the request
trace: the same loop as `tryHFDetectionLoop` (an abort check at the top of
each iteration breaks out; a successful fetch returns the parse of its
response; a thrown error continues with the next model), additionally
recording the single fetch each non-aborted iteration issues. -/
def tryHFDetectionRun (env : DetectEnv) :
    List HuggingFaceModel → Nat → Nat → HFDetectResult
  | [], _, _ => ⟨[], []⟩
  | m :: ms, t, idx =>
    if abortedAt env.abortAfter t then ⟨[], []⟩
    else if env.hfFetch idx = FetchOutcome.ok then
      ⟨parseHuggingFaceResponse (env.hfResponse idx) m.type, [(idx, t)]⟩
    else
      let r := tryHFDetectionRun env ms (t + 1) (idx + 1)
      ⟨r.objects, (idx, t) :: r.requests⟩

/-- The instrumentation is conservative: the objects computed by
`tryHFDetectionRun` are exactly those of `tryHFDetectionLoop`. -/
theorem tryHFDetectionRun_objects (env : DetectEnv) :
    ∀ (ms : List HuggingFaceModel) (t idx : Nat),
      (tryHFDetectionRun env ms t idx).objects = tryHFDetectionLoop env ms t idx := by
  intro ms
  induction ms with
  | nil => intro t idx; rfl
  | cons m tl ih =>
    intro t idx
    rw [tryHFDetectionRun, tryHFDetectionLoop]
    by_cases ha : abortedAt env.abortAfter t = true
    · rw [if_pos ha, if_pos ha]
    · rw [if_neg ha, if_neg ha]
      by_cases hk : env.hfFetch idx = FetchOutcome.ok
      · rw [if_pos hk, if_pos hk]
      · rw [if_neg hk, if_neg hk]
        exact ih _ _

/-- Once the detection loop starts an iteration with the signal set, it issues
no request at all. -/
theorem hfRun_nil_of_aborted (env : DetectEnv) (ms : List HuggingFaceModel)
    (t idx : Nat) (ha : abortedAt env.abortAfter t = true) :
    (tryHFDetectionRun env ms t idx).requests = [] := by
  cases ms with
  | nil => rfl
  | cons m tl => rw [tryHFDetectionRun, if_pos ha]

/-- Requests issued by the detection loop from position `idx` carry positions
`≥ idx`. -/
theorem hfRun_idx_le (env : DetectEnv) :
    ∀ (ms : List HuggingFaceModel) (t idx j u : Nat),
      (j, u) ∈ (tryHFDetectionRun env ms t idx).requests → idx ≤ j := by
  intro ms
  induction ms with
  | nil => intro t idx j u h; exact absurd h (List.not_mem_nil _)
  | cons m tl ih =>
    intro t idx j u h
    rw [tryHFDetectionRun] at h
    by_cases ha : abortedAt env.abortAfter t = true
    · rw [if_pos ha] at h
      exact absurd h (List.not_mem_nil _)
    · rw [if_neg ha] at h
      by_cases hk : env.hfFetch idx = FetchOutcome.ok
      · rw [if_pos hk] at h
        dsimp only at h
        obtain ⟨rfl, rfl⟩ := Prod.mk.injEq .. |>.mp (List.mem_singleton.mp h)
        exact le_refl _
      · rw [if_neg hk] at h
        dsimp only at h
        rcases List.mem_cons.mp h with he | hr
        · obtain ⟨rfl, rfl⟩ := Prod.mk.injEq .. |>.mp he
          exact le_refl _
        · exact le_trans (Nat.le_succ idx) (ih _ _ j u hr)

/-- C8. For both chains of the service — the legacy removal chain of
`tryAIRemoval` and the detection chain of `tryHuggingFaceDetection` — if the
cancellation token is signalled during (or immediately after) a recorded
attempt against the provider at chain position `i`, i.e. the signal instant
is at most that attempt time plus one, then no request is ever issued to any
later provider: every recorded request targets a position `≤ i`.  Each loop
checks the signal at the top of every iteration, short-circuiting before the
next provider is contacted. -/
theorem c8_cancel_stops_chain (fetch : Nat → Nat → FetchOutcome)
    (denv : DetectEnv) (a : Nat) (hab : denv.abortAfter = some a) :
    (∀ (ms : List AIModelConfig) (t idx i t1 j t2 : Nat),
      (i, t1) ∈ (tryAIRemovalLoop fetch (some a) ms t idx).requests →
      a ≤ t1 + 1 →
      (j, t2) ∈ (tryAIRemovalLoop fetch (some a) ms t idx).requests →
      j ≤ i) ∧
    (∀ (ms : List HuggingFaceModel) (t idx i t1 j t2 : Nat),
      (i, t1) ∈ (tryHFDetectionRun denv ms t idx).requests →
      a ≤ t1 + 1 →
      (j, t2) ∈ (tryHFDetectionRun denv ms t idx).requests →
      j ≤ i) := by
  constructor
  · intro ms
    induction ms with
    | nil => intro t idx i t1 j t2 h1; exact absurd h1 (List.not_mem_nil _)
    | cons m tl ih =>
      intro t idx i t1 j t2 h1 hsig h2
      rw [tryAIRemovalLoop] at h1 h2
      by_cases ha : abortedAt (some a) t = true
      · rw [if_pos ha] at h1
        exact absurd h1 (List.not_mem_nil _)
      · rw [if_neg ha] at h1 h2
        dsimp only at h1 h2
        by_cases hs : (callAIService (fetch idx) (some a) m.maxRetries t).success = true
        · rw [if_pos hs] at h1 h2
          dsimp only at h1 h2
          obtain ⟨u1, hu1, he1⟩ := List.mem_map.mp h1
          obtain ⟨rfl, rfl⟩ := Prod.mk.injEq .. |>.mp he1
          obtain ⟨u2, hu2, he2⟩ := List.mem_map.mp h2
          obtain ⟨rfl, rfl⟩ := Prod.mk.injEq .. |>.mp he2
          exact le_refl _
        · rw [if_neg hs] at h1 h2
          dsimp only at h1 h2
          rcases List.mem_append.mp h1 with h1g | h1r
          · obtain ⟨u1, hu1, he1⟩ := List.mem_map.mp h1g
            obtain ⟨rfl, rfl⟩ := Prod.mk.injEq .. |>.mp he1
            rcases List.mem_append.mp h2 with h2g | h2r
            · obtain ⟨u2, hu2, he2⟩ := List.mem_map.mp h2g
              obtain ⟨rfl, rfl⟩ := Prod.mk.injEq .. |>.mp he2
              exact le_refl _
            · exfalso
              have hb := (callLoop_bounds (fetch idx) (some a) m.maxRetries t 0).2 u1 hu1
              have hend : abortedAt (some a)
                  (callAIService (fetch idx) (some a) m.maxRetries t).endTime = true := by
                have hlt := hb.2
                simp only [abortedAt, Nat.ble_eq, callAIService]
                omega
              rw [chainLoop_nil_of_aborted fetch a tl _ (idx + 1) hend] at h2r
              exact absurd h2r (List.not_mem_nil _)
          · rcases List.mem_append.mp h2 with h2g | h2r
            · obtain ⟨u2, hu2, he2⟩ := List.mem_map.mp h2g
              obtain ⟨rfl, rfl⟩ := Prod.mk.injEq .. |>.mp he2
              have := chainLoop_idx_le fetch (some a) tl _ (idx + 1) i t1 h1r
              omega
            · exact ih _ _ i t1 j t2 h1r hsig h2r
  · intro ms
    induction ms with
    | nil => intro t idx i t1 j t2 h1; exact absurd h1 (List.not_mem_nil _)
    | cons m tl ih =>
      intro t idx i t1 j t2 h1 hsig h2
      rw [tryHFDetectionRun] at h1 h2
      by_cases ha : abortedAt denv.abortAfter t = true
      · rw [if_pos ha] at h1
        exact absurd h1 (List.not_mem_nil _)
      · rw [if_neg ha] at h1 h2
        by_cases hk : denv.hfFetch idx = FetchOutcome.ok
        · rw [if_pos hk] at h1 h2
          dsimp only at h1 h2
          obtain ⟨rfl, rfl⟩ := Prod.mk.injEq .. |>.mp (List.mem_singleton.mp h1)
          obtain ⟨rfl, rfl⟩ := Prod.mk.injEq .. |>.mp (List.mem_singleton.mp h2)
          exact le_refl _
        · rw [if_neg hk] at h1 h2
          dsimp only at h1 h2
          rcases List.mem_cons.mp h1 with h1e | h1r
          · obtain ⟨rfl, rfl⟩ := Prod.mk.injEq .. |>.mp h1e
            rcases List.mem_cons.mp h2 with h2e | h2r
            · obtain ⟨rfl, rfl⟩ := Prod.mk.injEq .. |>.mp h2e
              exact le_refl _
            · exfalso
              have hnext : abortedAt denv.abortAfter (t1 + 1) = true := by
                rw [hab]
                simp only [abortedAt, Nat.ble_eq]
                omega
              rw [hfRun_nil_of_aborted denv tl (t1 + 1) (i + 1) hnext] at h2r
              exact absurd h2r (List.not_mem_nil _)
          · rcases List.mem_cons.mp h2 with h2e | h2r
            · obtain ⟨rfl, rfl⟩ := Prod.mk.injEq .. |>.mp h2e
              exact le_trans (Nat.le_succ j) (hfRun_idx_le denv tl _ (j + 1) i t1 h1r)
            · exact ih _ _ i t1 j t2 h1r hsig h2r

/-- A detection environment cancelled at time 1, right after its first
request: every fetch fails and the signal oracle fires at 1. -/
def envC8 : DetectEnv :=
  ⟨0, none, fun _ => FetchOutcome.transportError, fun _ => ⟨none, none, none⟩,
    some 1, data21, 2, 1⟩

/-- Witness for C8: both chains all-failing and cancelled at time 1 —
i.e. right after the first request to provider 0 of each chain; the only
recorded request of each is `(0, 0)`, and both halves of the theorem apply
at it. -/
theorem c8_witness :
    ((0, 0) ∈ (tryAIRemovalLoop (fun _ _ => FetchOutcome.transportError) (some 1)
      AI_MODELS_ORDER 0 0).requests) ∧
    ((0, 0) ∈ (tryHFDetectionRun envC8 (detectionModels none) 0 0).requests) ∧
    (0 : Nat) ≤ 0 ∧ (0 : Nat) ≤ 0 :=
  ⟨by decide, by decide,
    (c8_cancel_stops_chain (fun _ _ => FetchOutcome.transportError) envC8 1 rfl).1
      AI_MODELS_ORDER 0 0 0 0 0 0 (by decide) (by norm_num) (by decide),
    (c8_cancel_stops_chain (fun _ _ => FetchOutcome.transportError) envC8 1 rfl).2
      (detectionModels none) 0 0 0 0 0 0 (by decide) (by norm_num) (by decide)⟩

end Banify
